import Mathlib

/-!
# Verification of the receipt extraction, validation and normalization pipeline

Shallow embedding of the core pipeline of the `reimburse-ai` repository
(`src/lib/ocrProcessing.ts` and the OCR route handler) into Lean 4, together
with proofs and refutations of the specification's claims.

Modelling conventions:
* JavaScript strings are modelled as `List Char` (`Str`); the JS `\s`, `\d`,
  `\w` character classes and line terminators follow the ECMAScript
  definitions.
* JS numbers are modelled as `ℚ`; the source's numeric literals and
  comparisons (`0.9`, `0.7`, `0.5`, `0.72`) preserve their order in `ℚ`
  exactly as in binary64, so the translation is faithful for every
  comparison the code performs.
* Calendar dates are modelled as day numbers of the proleptic Gregorian
  calendar (Howard Hinnant's `days_from_civil` bijection), with the
  evaluation instant `new Date()` taken at midnight UTC; all date
  comparisons the code performs are exact under this convention.
* External collaborators (HTTP fetch, OpenAI call, `new Date(string)`
  platform parsing, `Math.random`, Prisma lookup) are passed in as explicit
  parameters, as befits a shallow embedding of asynchronous I/O.
-/

namespace Reimburse

/-- JS strings as lists of characters. -/
abbrev Str := List Char

/-- ECMAScript WhiteSpace ∪ LineTerminator (the regex class `\s`, also the set
removed by `String.prototype.trim`), by code point: TAB LF VT FF CR SP NBSP
U+1680 U+2000–U+200A U+2028 U+2029 U+202F U+205F U+3000 U+FEFF. -/
def isWs (c : Char) : Bool :=
  let n := c.toNat
  n = 9 || n = 10 || n = 11 || n = 12 || n = 13 || n = 32 || n = 160 ||
  n = 5760 || (8192 ≤ n && n ≤ 8202) || n = 8232 || n = 8233 || n = 8239 ||
  n = 8287 || n = 12288 || n = 65279

/-- ECMAScript LineTerminator (the characters `.` does not match, and before
which `$` does not match absent the `m` flag): LF CR U+2028 U+2029. -/
def isLT (c : Char) : Bool :=
  let n := c.toNat
  n = 10 || n = 13 || n = 8232 || n = 8233

/-- The regex class `\w` = `[A-Za-z0-9_]`. -/
def isW (c : Char) : Bool :=
  let n := c.toNat
  (97 ≤ n && n ≤ 122) || (65 ≤ n && n ≤ 90) || (48 ≤ n && n ≤ 57) || n = 95

/-- The regex class `\d` = `[0-9]`. -/
def isD (c : Char) : Bool :=
  let n := c.toNat
  48 ≤ n && n ≤ 57

theorem char_eq_iff_toNat {a b : Char} : a = b ↔ a.toNat = b.toNat :=
  ⟨fun h => h ▸ rfl, fun h => Char.ext (UInt32.ext h)⟩

theorem charLe_iff {a b : Char} : a ≤ b ↔ a.toNat ≤ b.toNat := Iff.rfl

theorem lt_subset_ws {c : Char} (h : isLT c = true) : isWs c = true := by
  simp only [isLT, isWs, Bool.or_eq_true, Bool.and_eq_true,
    decide_eq_true_eq] at h ⊢
  omega

/-! ## `toUpperCase` on the word-character domain

The title-casing step `replace(/\b\w/g, (l) => l.toUpperCase())` applies JS
`toUpperCase` only to single `\w` matches, i.e. to `[A-Za-z0-9_]`, on which
`toUpperCase` is exactly the ASCII mapping `a-z → A-Z`. -/

def upperChar (c : Char) : Char :=
  if 'a' ≤ c && c ≤ 'z' then Char.ofNat (c.toNat - 32) else c

theorem lower_toNat {c : Char} (h : ('a' ≤ c && c ≤ 'z') = true) :
    97 ≤ c.toNat ∧ c.toNat ≤ 122 := by
  simp only [Bool.and_eq_true, decide_eq_true_eq, charLe_iff] at h
  have e1 : ('a').toNat = 97 := rfl
  have e2 : ('z').toNat = 122 := rfl
  omega

theorem toNat_upperChar {c : Char} (h : ('a' ≤ c && c ≤ 'z') = true) :
    (upperChar c).toNat = c.toNat - 32 := by
  simp only [upperChar, h, if_true]
  have hv : (c.toNat - 32).isValidChar := by
    have := lower_toNat h
    left; omega
  rw [Char.ofNat, dif_pos hv]
  rfl

theorem upperChar_eq_self {c : Char} (h : ('a' ≤ c && c ≤ 'z') = false) :
    upperChar c = c := by
  simp [upperChar, h]

/-- Case split for `upperChar`: either the character is an ASCII lowercase
letter with known image code point, or it is fixed. -/
theorem upperChar_cases (c : Char) :
    (97 ≤ c.toNat ∧ c.toNat ≤ 122 ∧ (upperChar c).toNat = c.toNat - 32) ∨
    upperChar c = c := by
  by_cases h : ('a' ≤ c && c ≤ 'z') = true
  · exact Or.inl ⟨(lower_toNat h).1, (lower_toNat h).2, toNat_upperChar h⟩
  · exact Or.inr (upperChar_eq_self (Bool.not_eq_true _ ▸ h))

theorem isWs_upperChar (c : Char) : isWs (upperChar c) = isWs c := by
  rcases upperChar_cases c with ⟨h1, h2, h3⟩ | h
  · rw [Bool.eq_iff_iff]
    simp only [isWs, Bool.or_eq_true, Bool.and_eq_true, decide_eq_true_eq, h3]
    omega
  · rw [h]

theorem isLT_upperChar (c : Char) : isLT (upperChar c) = isLT c := by
  rcases upperChar_cases c with ⟨h1, h2, h3⟩ | h
  · rw [Bool.eq_iff_iff]
    simp only [isLT, Bool.or_eq_true, decide_eq_true_eq, h3]
    omega
  · rw [h]

theorem isD_upperChar (c : Char) : isD (upperChar c) = isD c := by
  rcases upperChar_cases c with ⟨h1, h2, h3⟩ | h
  · rw [Bool.eq_iff_iff]
    simp only [isD, Bool.and_eq_true, decide_eq_true_eq, h3]
    omega
  · rw [h]

theorem isW_upperChar (c : Char) : isW (upperChar c) = isW c := by
  rcases upperChar_cases c with ⟨h1, h2, h3⟩ | h
  · rw [Bool.eq_iff_iff]
    simp only [isW, Bool.or_eq_true, Bool.and_eq_true, decide_eq_true_eq, h3]
    omega
  · rw [h]

/-- `upperChar` fixes every character whose code point is not an ASCII letter
code point; in particular `#`, `*`, `-` and all whitespace survive. -/
theorem upperChar_eq_lit {c d : Char}
    (hd1 : ¬(97 ≤ d.toNat ∧ d.toNat ≤ 122))
    (hd2 : ¬(65 ≤ d.toNat ∧ d.toNat ≤ 90)) :
    (upperChar c = d) = (c = d) := by
  rcases upperChar_cases c with ⟨h1, h2, h3⟩ | h
  · rw [eq_iff_iff]
    simp only [char_eq_iff_toNat, h3]
    omega
  · rw [h]

/-- Transport of a case-insensitive letter test across `upperChar`,
for a lowercase letter `lo` with uppercase partner `up`. -/
theorem upperChar_ci {lo up : Char} (c : Char)
    (hl : 97 ≤ lo.toNat ∧ lo.toNat ≤ 122) (hu : up.toNat + 32 = lo.toNat) :
    (upperChar c = lo || upperChar c = up) = (c = lo || c = up) := by
  rcases upperChar_cases c with ⟨h1, h2, h3⟩ | h
  · rw [Bool.eq_iff_iff]
    simp only [char_eq_iff_toNat, h3, Bool.or_eq_true, decide_eq_true_eq]
    omega
  · rw [h]

/-! ## The merchant normalizer (`normalizeMerchant`, part_000 lines 416–435)

Each noise pattern is an end-anchored regex applied by a non-global
`String.prototype.replace`, which deletes the leftmost match.  Because every
pattern ends in `.*$` (with no `m` flag), a match starting at position `i`
must extend to the end of the string, and the part matched by `.*` may not
contain a line terminator; deleting the match therefore truncates the string
at `i`.  `cutFrom p` implements this: it removes the suffix starting at the
first position whose suffix satisfies the whole-suffix match predicate `p`.
-/

/-- `l.all (¬ isLT)`: the region the regex token `.*` can span. -/
def noLT (l : Str) : Bool := l.all (fun c => !isLT c)

/-- Truncate at the first position whose (nonempty) suffix matches `p`;
this is `replace(p', "")` for an end-anchored pattern `p'`. -/
def cutFrom (p : Str → Bool) : Str → Str
  | [] => []
  | c :: rest => if p (c :: rest) then [] else c :: cutFrom p rest

/-- Whole-suffix match for `/\*TRIP.*$/i`. -/
def matchTrip : Str → Bool
  | c :: t :: r :: i :: p :: rest =>
    c = '*' && (t = 't' || t = 'T') && (r = 'r' || r = 'R') &&
    (i = 'i' || i = 'I') && (p = 'p' || p = 'P') && noLT rest
  | _ => false

/-- Tail of `/\s+\*\s*.*$/i` after the forced whitespace run: a literal
`*`, then optional whitespace, then a line-terminator-free remainder. -/
def starTail : Str → Bool
  | '*' :: rest => noLT (rest.dropWhile isWs)
  | _ => false

/-- Tail of `/\s+#\d+.*$/i` after the whitespace run: `#`, at least one
digit, then a line-terminator-free remainder. -/
def hashTail : Str → Bool
  | '#' :: rest =>
    (match rest with
     | d :: _ => isD d && noLT (rest.dropWhile isD)
     | [] => false)
  | _ => false

/-- Tail of `/\s+\d{4}.*$/i` after the whitespace run: exactly four digits,
then a line-terminator-free remainder. -/
def fourTail : Str → Bool
  | a :: b :: c :: d :: rest => isD a && isD b && isD c && isD d && noLT rest
  | _ => false

/-- Tail of `/\s+-\s+.*$/i` after the whitespace run: `-`, at least one
whitespace, then a line-terminator-free remainder. -/
def dashTail : Str → Bool
  | '-' :: rest =>
    (match rest with
     | c :: _ => isWs c && noLT (rest.dropWhile isWs)
     | [] => false)
  | _ => false

/-- A whitespace run (`\s+`) followed by a tail condition on the rest.
Because none of the tails can start with whitespace, the run is forced to be
the maximal whitespace prefix. -/
def wsRunThen (k : Str → Bool) : Str → Bool
  | [] => false
  | c :: rest => isWs c && k ((c :: rest).dropWhile isWs)

def matchStar : Str → Bool := wsRunThen starTail
def matchHash : Str → Bool := wsRunThen hashTail
def matchFour : Str → Bool := wsRunThen fourTail
def matchDash : Str → Bool := wsRunThen dashTail

/-- JS `String.prototype.trim`: strip leading and trailing whitespace. -/
def trimJs (l : Str) : Str :=
  ((l.dropWhile isWs).reverse.dropWhile isWs).reverse

/-- JS `replace(/\s+/g, " ")`: collapse every whitespace run to one space. -/
def collapseWs : Str → Str
  | [] => []
  | [c] => if isWs c then [' '] else [c]
  | c :: d :: rest =>
    if isWs c && isWs d then collapseWs (d :: rest)
    else (if isWs c then ' ' else c) :: collapseWs (d :: rest)

/-- JS `replace(/\b\w/g, (l) => l.toUpperCase())`: uppercase each word
character that is not preceded by a word character.  The flag records
whether the previous character was a word character. -/
def titleGo (prevW : Bool) : Str → Str
  | [] => []
  | c :: rest =>
    (if !prevW && isW c then upperChar c else c) :: titleGo (isW c) rest

def titleCase (l : Str) : Str := titleGo false l

/-- `normalizeMerchant` (part_000 lines 416–435): return "Unknown Merchant"
for an empty input, strip the five end-anchored noise patterns in order,
trim, collapse whitespace, title-case, and substitute "Unknown Merchant" for
an empty result. -/
def normalizeMerchant (s : Str) : Str :=
  if s = [] then "Unknown Merchant".toList
  else
    let n1 := cutFrom matchTrip s
    let n2 := cutFrom matchStar n1
    let n3 := cutFrom matchHash n2
    let n4 := cutFrom matchFour n3
    let n5 := cutFrom matchDash n4
    let n6 := trimJs n5
    let n7 := collapseWs n6
    let n8 := titleCase n7
    if n8 = [] then "Unknown Merchant".toList else n8

/-- String-level wrapper. -/
def normalizeMerchantStr (s : String) : String :=
  ⟨normalizeMerchant s.toList⟩

example : normalizeMerchantStr "UBER" = "UBER" := by decide
example : normalizeMerchantStr "uber *TRIP 3H2K" = "Uber" := by decide
example : normalizeMerchantStr "starbucks  store #122 main st" = "Starbucks Store" := by decide
example : normalizeMerchantStr "Shell - Houston TX" = "Shell" := by decide
example : normalizeMerchantStr "  " = "Unknown Merchant" := by decide
example : normalizeMerchantStr "mcdonald's 4521 elm" = "Mcdonald'S" := by decide
example : normalizeMerchantStr "A 1234\nB" = "A 1234 B" := by decide
example : normalizeMerchantStr "A 1234 B" = "A" := by decide

/-! ### Idempotence analysis of the merchant normalizer

On line-terminator-free strings the `noLT` side conditions of the five match
predicates hold vacuously, and each predicate reduces to a "shape": a local
pattern that is monotone under extension of the string.  The development
below proves that one pass of the normalizer removes every shape occurrence
(and whitespace irregularity), so that a second pass is the identity. -/

def shTrip : Str → Bool
  | c :: t :: r :: i :: p :: _ =>
    c = '*' && (t = 't' || t = 'T') && (r = 'r' || r = 'R') &&
    (i = 'i' || i = 'I') && (p = 'p' || p = 'P')
  | _ => false

def shStarT : Str → Bool
  | '*' :: _ => true
  | _ => false

def shHashT : Str → Bool
  | '#' :: d :: _ => isD d
  | _ => false

def shFourT : Str → Bool
  | a :: b :: c :: d :: _ => isD a && isD b && isD c && isD d
  | _ => false

def shDashT : Str → Bool
  | '-' :: c :: _ => isWs c
  | _ => false

def shStar : Str → Bool := wsRunThen shStarT
def shHash : Str → Bool := wsRunThen shHashT
def shFour : Str → Bool := wsRunThen shFourT
def shDash : Str → Bool := wsRunThen shDashT

theorem noLT_sublist {l' l : Str} (h : l'.Sublist l) (hl : noLT l = true) :
    noLT l' = true := by
  simp only [noLT, List.all_eq_true] at hl ⊢
  exact fun c hc => hl c (h.subset hc)

theorem noLT_dropWhile {l : Str} (p : Char → Bool) (hl : noLT l = true) :
    noLT (l.dropWhile p) = true :=
  noLT_sublist (List.dropWhile_suffix p).sublist hl

theorem noLT_cons {c : Char} {l : Str} (hl : noLT (c :: l) = true) :
    noLT l = true :=
  noLT_sublist (List.sublist_cons_self c l) hl

theorem matchTrip_eq_sh {l : Str} (hl : noLT l = true) :
    matchTrip l = shTrip l := by
  match l with
  | [] => rfl
  | [a] => rfl
  | [a, b] => rfl
  | [a, b, c] => rfl
  | [a, b, c, d] => rfl
  | a :: b :: c :: d :: e :: rest =>
    have : noLT rest = true :=
      noLT_cons (noLT_cons (noLT_cons (noLT_cons (noLT_cons hl))))
    simp [matchTrip, shTrip, this]

theorem starTail_eq_sh {l : Str} (hl : noLT l = true) :
    starTail l = shStarT l := by
  match l with
  | [] => rfl
  | c :: rest =>
    by_cases hc : c = '*'
    · subst hc
      simp [starTail, shStarT, noLT_dropWhile isWs (noLT_cons hl)]
    · simp [starTail, shStarT, hc]

theorem hashTail_eq_sh {l : Str} (hl : noLT l = true) :
    hashTail l = shHashT l := by
  match l with
  | [] => rfl
  | [c] =>
    by_cases hc : c = '#' <;> simp [hashTail, shHashT, hc]
  | c :: d :: rest =>
    by_cases hc : c = '#'
    · subst hc
      simp [hashTail, shHashT, noLT_dropWhile isD (noLT_cons hl),
        Bool.and_comm]
    · simp [hashTail, shHashT, hc]

theorem fourTail_eq_sh {l : Str} (hl : noLT l = true) :
    fourTail l = shFourT l := by
  match l with
  | [] => rfl
  | [a] => rfl
  | [a, b] => rfl
  | [a, b, c] => rfl
  | a :: b :: c :: d :: rest =>
    have : noLT rest = true :=
      noLT_cons (noLT_cons (noLT_cons (noLT_cons hl)))
    simp [fourTail, shFourT, this]

theorem dashTail_eq_sh {l : Str} (hl : noLT l = true) :
    dashTail l = shDashT l := by
  match l with
  | [] => rfl
  | [c] =>
    by_cases hc : c = '-' <;> simp [dashTail, shDashT, hc]
  | c :: d :: rest =>
    by_cases hc : c = '-'
    · subst hc
      simp [dashTail, shDashT, noLT_dropWhile isWs (noLT_cons hl),
        Bool.and_comm]
    · simp [dashTail, shDashT, hc]

theorem wsRunThen_congr {k k' : Str → Bool} {l : Str}
    (h : ∀ m, m.Sublist l → k m = k' m) :
    wsRunThen k l = wsRunThen k' l := by
  match l with
  | [] => rfl
  | c :: rest =>
    simp only [wsRunThen]
    rw [h ((c :: rest).dropWhile isWs) (List.dropWhile_suffix isWs).sublist]

theorem matchStar_eq_sh {l : Str} (hl : noLT l = true) :
    matchStar l = shStar l :=
  wsRunThen_congr fun _ hm => starTail_eq_sh (noLT_sublist hm hl)

theorem matchHash_eq_sh {l : Str} (hl : noLT l = true) :
    matchHash l = shHash l :=
  wsRunThen_congr fun _ hm => hashTail_eq_sh (noLT_sublist hm hl)

theorem matchFour_eq_sh {l : Str} (hl : noLT l = true) :
    matchFour l = shFour l :=
  wsRunThen_congr fun _ hm => fourTail_eq_sh (noLT_sublist hm hl)

theorem matchDash_eq_sh {l : Str} (hl : noLT l = true) :
    matchDash l = shDash l :=
  wsRunThen_congr fun _ hm => dashTail_eq_sh (noLT_sublist hm hl)

/-! ### Occurrences of a match predicate -/

/-- `hasM p l`: some nonempty suffix of `l` satisfies `p` — i.e. the
end-anchored regex corresponding to `p` matches somewhere in `l`. -/
def hasM (p : Str → Bool) : Str → Bool
  | [] => false
  | c :: rest => p (c :: rest) || hasM p rest

/-- A predicate is monotone when a match survives extension of the string to
the right.  All five shapes are monotone; the raw `match*` predicates are not
(the extension may introduce a line terminator). -/
def Mono (p : Str → Bool) : Prop :=
  ∀ l e, p l = true → p (l ++ e) = true

theorem hasM_of_suffix {p : Str → Bool} {l' l : Str} (h : l' <:+ l)
    (hm : hasM p l' = true) : hasM p l = true := by
  induction l with
  | nil =>
    rw [List.suffix_nil.mp h] at hm
    exact absurd hm (by simp [hasM])
  | cons c rest ih =>
    rcases List.suffix_cons_iff.mp h with h1 | h1
    · rw [h1] at hm; exact hm
    · simp only [hasM, Bool.or_eq_true]
      exact Or.inr (ih h1)

theorem hasM_of_pref {p : Str → Bool} (hp : Mono p) {l' l : Str}
    (h : l' <+: l) (hm : hasM p l' = true) : hasM p l = true := by
  induction l' generalizing l with
  | nil => simp [hasM] at hm
  | cons c rest ih =>
    obtain ⟨e, he⟩ := h
    subst he
    simp only [hasM, Bool.or_eq_true] at hm
    rcases hm with hm | hm
    · simp only [List.cons_append, hasM, Bool.or_eq_true]
      exact Or.inl (hp _ e hm)
    · have : hasM p (rest ++ e) = true :=
        ih (l := rest ++ e) ⟨e, rfl⟩ hm
      exact hasM_of_suffix ⟨[c], rfl⟩ this

theorem hasM_of_mid {p : Str → Bool} (hp : Mono p) {l' l : Str}
    (h : l' <:+: l) (hm : hasM p l' = true) : hasM p l = true := by
  obtain ⟨a, b, hab⟩ := h
  subst hab
  have h1 : hasM p (l' ++ b) = true := hasM_of_pref hp ⟨b, rfl⟩ hm
  exact hasM_of_suffix ⟨a, by simp⟩ h1

theorem hasM_false_of_pref {p : Str → Bool} (hp : Mono p) {l' l : Str}
    (h : l' <+: l) (hm : hasM p l = false) : hasM p l' = false := by
  rw [Bool.eq_false_iff]
  intro hc
  rw [hasM_of_pref hp h hc] at hm
  simp at hm

theorem hasM_false_of_mid {p : Str → Bool} (hp : Mono p) {l' l : Str}
    (h : l' <:+: l) (hm : hasM p l = false) : hasM p l' = false := by
  rw [Bool.eq_false_iff]
  intro hc
  rw [hasM_of_mid hp h hc] at hm
  simp at hm

theorem cutFrom_pref (p : Str → Bool) (l : Str) : cutFrom p l <+: l := by
  induction l with
  | nil => exact List.prefix_refl _
  | cons c rest ih =>
    simp only [cutFrom]
    split
    · exact List.nil_prefix
    · exact List.cons_prefix_cons.mpr ⟨rfl, ih⟩

theorem cutFrom_eq_self {p : Str → Bool} {l : Str} (h : hasM p l = false) :
    cutFrom p l = l := by
  induction l with
  | nil => rfl
  | cons c rest ih =>
    simp only [hasM, Bool.or_eq_false_iff] at h
    simp only [cutFrom, h.1, Bool.false_eq_true, if_false]
    rw [ih h.2]

theorem hasM_cutFrom_self {p : Str → Bool} (hp : Mono p) (l : Str) :
    hasM p (cutFrom p l) = false := by
  induction l with
  | nil => rfl
  | cons c rest ih =>
    simp only [cutFrom]
    split
    · rfl
    · rename_i hfalse
      simp only [hasM, Bool.or_eq_false_iff]
      refine ⟨?_, ih⟩
      by_contra hc
      have hpre : c :: cutFrom p rest <+: c :: rest :=
        List.cons_prefix_cons.mpr ⟨rfl, cutFrom_pref p rest⟩
      obtain ⟨e, he⟩ := hpre
      have := hp (c :: cutFrom p rest) e (Bool.not_eq_false _ ▸ hc)
      rw [he] at this
      exact hfalse this

theorem cutFrom_congr {p q : Str → Bool} {l : Str}
    (h : ∀ m, m <:+ l → p m = q m) : cutFrom p l = cutFrom q l := by
  induction l with
  | nil => rfl
  | cons c rest ih =>
    simp only [cutFrom]
    rw [h (c :: rest) (List.suffix_refl _)]
    split
    · rfl
    · rw [ih fun m hm => h m (hm.trans ⟨[c], rfl⟩)]

/-! ### Monotonicity of the five shapes -/

theorem mono_shTrip : Mono shTrip := by
  intro l e h
  match l with
  | [] => simp [shTrip] at h
  | [a] => simp [shTrip] at h
  | [a, b] => simp [shTrip] at h
  | [a, b, c] => simp [shTrip] at h
  | [a, b, c, d] => simp [shTrip] at h
  | a :: b :: c :: d :: f :: rest => simpa [shTrip] using h

theorem mono_wsRunThen {t : Str → Bool} (ht0 : t [] = false)
    (ht : ∀ m e, t m = true → t (m ++ e) = true) : Mono (wsRunThen t) := by
  intro l e h
  match l with
  | [] => simp [wsRunThen] at h
  | c :: rest =>
    simp only [wsRunThen, Bool.and_eq_true] at h
    have hne : (c :: rest).dropWhile isWs ≠ [] := by
      intro hnil
      rw [hnil, ht0] at h
      exact absurd h.2 (by simp)
    simp only [List.cons_append, wsRunThen, Bool.and_eq_true]
    refine ⟨h.1, ?_⟩
    have : (c :: rest ++ e).dropWhile isWs =
        (c :: rest).dropWhile isWs ++ e := by
      rw [show c :: rest ++ e = (c :: rest) ++ e from rfl,
        List.dropWhile_append]
      simp [List.isEmpty_iff, hne]
    rw [show ((c :: (rest ++ e)).dropWhile isWs) =
        ((c :: rest ++ e).dropWhile isWs) from rfl, this]
    exact ht _ e h.2

theorem mono_shStar : Mono shStar := by
  apply mono_wsRunThen rfl
  intro m e h
  match m with
  | [] => simp [shStarT] at h
  | c :: rest =>
    by_cases hc : c = '*'
    · subst hc; rfl
    · simp [shStarT, hc] at h

theorem mono_shHash : Mono shHash := by
  apply mono_wsRunThen rfl
  intro m e h
  match m with
  | [] => simp [shHashT] at h
  | c :: rest =>
    by_cases hc : c = '#'
    · subst hc
      match rest with
      | [] => simp [shHashT] at h
      | d :: rest2 => simpa [shHashT] using h
    · simp [shHashT, hc] at h

theorem mono_shFour : Mono shFour := by
  apply mono_wsRunThen rfl
  intro m e h
  match m with
  | a :: b :: c :: d :: rest => simpa [shFourT] using h
  | [] => simp [shFourT] at h
  | [a] => simp [shFourT] at h
  | [a, b] => simp [shFourT] at h
  | [a, b, c] => simp [shFourT] at h

theorem mono_shDash : Mono shDash := by
  apply mono_wsRunThen rfl
  intro m e h
  match m with
  | [] => simp [shDashT] at h
  | c :: rest =>
    by_cases hc : c = '-'
    · subst hc
      match rest with
      | [] => simp [shDashT] at h
      | d :: rest2 => simpa [shDashT] using h
    · simp [shDashT, hc] at h

/-! ### Structure of `collapseWs` -/

theorem collapse_cons_nonws {c : Char} (h : isWs c = false) (m : Str) :
    collapseWs (c :: m) = c :: collapseWs m := by
  match m with
  | [] => simp [collapseWs, h]
  | d :: rest => simp [collapseWs, h]

theorem collapse_head_of_ws {c : Char} (h : isWs c = true) (m : Str) :
    ∃ M, collapseWs (c :: m) = ' ' :: M := by
  induction m generalizing c with
  | nil => exact ⟨[], by simp [collapseWs, h]⟩
  | cons d rest ih =>
    by_cases hd : isWs d = true
    · obtain ⟨M, hM⟩ := ih hd
      exact ⟨M, by simp [collapseWs, h, hd, hM]⟩
    · have hd' : isWs d = false := by simpa using hd
      exact ⟨collapseWs (d :: rest), by simp [collapseWs, h, hd']⟩

theorem collapse_ne_nil {m : Str} (h : m ≠ []) : collapseWs m ≠ [] := by
  match m with
  | c :: rest =>
    by_cases hc : isWs c = true
    · obtain ⟨M, hM⟩ := collapse_head_of_ws hc rest
      simp [hM]
    · have hc' : isWs c = false := by simpa using hc
      rw [collapse_cons_nonws hc']
      simp

theorem collapse_cons_inv {m : Str} {y : Char} {M : Str}
    (h : collapseWs m = y :: M) (hy : isWs y = false) :
    ∃ m', m = y :: m' ∧ collapseWs m' = M := by
  match m with
  | [] => simp [collapseWs] at h
  | c :: rest =>
    by_cases hc : isWs c = true
    · obtain ⟨M2, hM2⟩ := collapse_head_of_ws hc rest
      rw [hM2] at h
      injection h with h1 h2
      rw [← h1] at hy
      exact absurd hy (by decide)
    · have hc' : isWs c = false := by simpa using hc
      rw [collapse_cons_nonws hc'] at h
      injection h with h1 h2
      exact ⟨rest, by rw [h1], h2⟩

theorem collapse_prefix_nonws {pre : Str} :
    ∀ {m : Str}, pre.all (fun c => !isWs c) = true → pre <+: collapseWs m →
      pre <+: m := by
  induction pre with
  | nil => exact fun _ _ => List.nil_prefix
  | cons x pre' ih =>
    intro m hpre h
    simp only [List.all_cons, Bool.and_eq_true, Bool.not_eq_true'] at hpre
    obtain ⟨e, he⟩ := h
    have he' : collapseWs m = x :: (pre' ++ e) := by
      rw [← he]; rfl
    obtain ⟨m', hm', hcm'⟩ := collapse_cons_inv he' hpre.1
    have hp' : pre' <+: m' := by
      apply ih ?_ ?_
      · simpa [List.all_eq_true] using hpre.2
      · rw [hcm']; exact ⟨e, rfl⟩
    rw [hm']
    exact List.cons_prefix_cons.mpr ⟨rfl, hp'⟩

/-- Transporting an occurrence of a whitespace-run shape backwards through
whitespace collapsing: the tail condition `t` must transport through the
collapsed remainder after a non-whitespace head. -/
theorem hasM_wsRunThen_collapse {t : Str → Bool} (ht0 : t [] = false)
    (ht : ∀ d rest, isWs d = false → t (d :: collapseWs rest) = true →
      t (d :: rest) = true) :
    ∀ l, hasM (wsRunThen t) (collapseWs l) = true →
      hasM (wsRunThen t) l = true := by
  intro l
  induction l with
  | nil => simp [collapseWs, hasM]
  | cons c rest ih =>
    match rest with
    | [] =>
      intro h
      exfalso
      by_cases hc : isWs c = true
      · simp [collapseWs, hc, hasM, wsRunThen, List.dropWhile,
          show isWs ' ' = true from rfl, ht0] at h
      · have hc' : isWs c = false := by simpa using hc
        simp [collapseWs, hc', hasM, wsRunThen, List.dropWhile, hc'] at h
    | d :: rest2 =>
      intro h
      by_cases hcd : isWs c = true ∧ isWs d = true
      · rw [show collapseWs (c :: d :: rest2) = collapseWs (d :: rest2) by
          simp [collapseWs, hcd.1, hcd.2]] at h
        exact hasM_of_suffix ⟨[c], rfl⟩ (ih h)
      · have hsplit : collapseWs (c :: d :: rest2) =
            (if isWs c then ' ' else c) :: collapseWs (d :: rest2) := by
          simp only [collapseWs]
          rw [if_neg]
          simpa [Bool.and_eq_true] using hcd
        rw [hsplit] at h
        simp only [hasM, Bool.or_eq_true] at h
        rcases h with h | h
        · -- head occurrence in the collapsed string
          by_cases hc : isWs c = true
          · have hd : isWs d = false := by
              by_cases hd' : isWs d = true
              · exact absurd ⟨hc, hd'⟩ hcd
              · simpa using hd'
            rw [if_pos hc] at h
            simp only [wsRunThen, Bool.and_eq_true] at h
            have hM : collapseWs (d :: rest2) = d :: collapseWs rest2 :=
              collapse_cons_nonws hd rest2
            have hdrop : (' ' :: collapseWs (d :: rest2)).dropWhile isWs =
                d :: collapseWs rest2 := by
              rw [hM, List.dropWhile_cons, if_pos (by decide),
                List.dropWhile_cons, if_neg (by simp [hd])]
            rw [hdrop] at h
            have := ht d rest2 hd h.2
            simp only [hasM, Bool.or_eq_true]
            left
            simp only [wsRunThen, Bool.and_eq_true]
            refine ⟨hc, ?_⟩
            rw [List.dropWhile_cons, if_pos hc, List.dropWhile_cons,
              if_neg (by simp [hd])]
            exact this
          · have hc' : isWs c = false := by simpa using hc
            rw [if_neg (by simp [hc'])] at h
            simp only [wsRunThen, Bool.and_eq_true] at h
            rw [hc'] at h
            exact absurd h.1 (by simp)
        · exact hasM_of_suffix ⟨[c], rfl⟩ (ih h)

/-! ### Inversion helpers for the shapes -/

theorem shTrip_inv {x : Char} {m : Str} (h : shTrip (x :: m) = true) :
    x = '*' ∧ ∃ t r i p tail, m = t :: r :: i :: p :: tail ∧
      (t = 't' ∨ t = 'T') ∧ (r = 'r' ∨ r = 'R') ∧ (i = 'i' ∨ i = 'I') ∧
      (p = 'p' ∨ p = 'P') := by
  match m with
  | [] => simp [shTrip] at h
  | [a] => simp [shTrip] at h
  | [a, b] => simp [shTrip] at h
  | [a, b, c] => simp [shTrip] at h
  | t :: r :: i :: p :: tail =>
    simp only [shTrip, Bool.and_eq_true, Bool.or_eq_true,
      decide_eq_true_eq] at h
    exact ⟨h.1.1.1.1, t, r, i, p, tail, rfl, h.1.1.1.2, h.1.1.2, h.1.2, h.2⟩

theorem shTrip_intro {x t r i p : Char} (tail : Str) (hx : x = '*')
    (ht : t = 't' ∨ t = 'T') (hr : r = 'r' ∨ r = 'R')
    (hi : i = 'i' ∨ i = 'I') (hp : p = 'p' ∨ p = 'P') :
    shTrip (x :: t :: r :: i :: p :: tail) = true := by
  simp [shTrip, hx, ht, hr, hi, hp]

theorem shStarT_inv {x : Char} {m : Str} (h : shStarT (x :: m) = true) :
    x = '*' := by
  by_cases hx : x = '*'
  · exact hx
  · simp [shStarT, hx] at h

theorem shHashT_inv {x : Char} {m : Str} (h : shHashT (x :: m) = true) :
    x = '#' ∧ ∃ e m', m = e :: m' ∧ isD e = true := by
  by_cases hx : x = '#'
  · subst hx
    match m with
    | [] => simp [shHashT] at h
    | e :: m' => exact ⟨rfl, e, m', rfl, by simpa [shHashT] using h⟩
  · simp [shHashT, hx] at h

theorem shFourT_inv {m : Str} (h : shFourT m = true) :
    ∃ a b c d m', m = a :: b :: c :: d :: m' ∧ isD a = true ∧ isD b = true ∧
      isD c = true ∧ isD d = true := by
  match m with
  | [] => simp [shFourT] at h
  | [a] => simp [shFourT] at h
  | [a, b] => simp [shFourT] at h
  | [a, b, c] => simp [shFourT] at h
  | a :: b :: c :: d :: m' =>
    simp only [shFourT, Bool.and_eq_true] at h
    exact ⟨a, b, c, d, m', rfl, h.1.1.1, h.1.1.2, h.1.2, h.2⟩

theorem shDashT_inv {x : Char} {m : Str} (h : shDashT (x :: m) = true) :
    x = '-' ∧ ∃ e m', m = e :: m' ∧ isWs e = true := by
  by_cases hx : x = '-'
  · subst hx
    match m with
    | [] => simp [shDashT] at h
    | e :: m' => exact ⟨rfl, e, m', rfl, by simpa [shDashT] using h⟩
  · simp [shDashT, hx] at h

theorem isWs_of_isD {c : Char} (h : isD c = true) : isWs c = false := by
  simp only [isD, Bool.and_eq_true, decide_eq_true_eq] at h
  rw [Bool.eq_false_iff]
  intro hw
  simp only [isWs, Bool.or_eq_true, Bool.and_eq_true, decide_eq_true_eq] at hw
  omega

theorem ci_not_ws {t lo up : Char} (h : t = lo ∨ t = up)
    (hlo : isWs lo = false) (hup : isWs up = false) : isWs t = false := by
  rcases h with h | h <;> rw [h] <;> assumption

/-! ### Transporting shape occurrences backwards through `collapseWs` -/

theorem hasM_shStar_collapse (l : Str)
    (h : hasM shStar (collapseWs l) = true) : hasM shStar l = true := by
  refine hasM_wsRunThen_collapse rfl ?_ l h
  intro d rest hd ht
  have := shStarT_inv ht
  subst this
  rfl

theorem hasM_shHash_collapse (l : Str)
    (h : hasM shHash (collapseWs l) = true) : hasM shHash l = true := by
  refine hasM_wsRunThen_collapse rfl ?_ l h
  intro d rest hd ht
  obtain ⟨hx, e, m', hm', he⟩ := shHashT_inv ht
  subst hx
  obtain ⟨r', hr', _⟩ := collapse_cons_inv hm' (isWs_of_isD he)
  rw [hr']
  simpa [shHashT] using he

theorem hasM_shFour_collapse (l : Str)
    (h : hasM shFour (collapseWs l) = true) : hasM shFour l = true := by
  refine hasM_wsRunThen_collapse rfl ?_ l h
  intro d rest hd ht
  obtain ⟨a, b, c, d2, m', hm', ha, hb, hc2, hd2⟩ := shFourT_inv ht
  injection hm' with h1 h2
  subst h1
  -- the three remaining digits form a non-whitespace prefix of collapseWs rest
  have hpre : [b, c, d2] <+: collapseWs rest := by
    rw [h2]; exact ⟨m', rfl⟩
  have hall : ([b, c, d2] : Str).all (fun x => !isWs x) = true := by
    simp [isWs_of_isD hb, isWs_of_isD hc2, isWs_of_isD hd2]
  obtain ⟨e2, he2⟩ := collapse_prefix_nonws hall hpre
  rw [← he2]
  simp [shFourT, ha, hb, hc2, hd2]

theorem hasM_shDash_collapse (l : Str)
    (h : hasM shDash (collapseWs l) = true) : hasM shDash l = true := by
  refine hasM_wsRunThen_collapse rfl ?_ l h
  intro d rest hd ht
  obtain ⟨hx, e, m', hm', he⟩ := shDashT_inv ht
  subst hx
  match rest with
  | [] => simp [collapseWs] at hm'
  | x :: rest2 =>
    by_cases hwx : isWs x = true
    · simpa [shDashT] using hwx
    · have hwx' : isWs x = false := by simpa using hwx
      rw [collapse_cons_nonws hwx'] at hm'
      injection hm' with h1 h2
      rw [h1] at hwx'
      rw [hwx'] at he
      simp at he

theorem hasM_shTrip_collapse (l : Str)
    (h : hasM shTrip (collapseWs l) = true) : hasM shTrip l = true := by
  induction l with
  | nil => simp [collapseWs, hasM] at h
  | cons c rest ih =>
    match rest with
    | [] =>
      exfalso
      by_cases hc : isWs c = true
      · simp [collapseWs, hc, hasM, shTrip] at h
      · have hc' : isWs c = false := by simpa using hc
        simp [collapseWs, hc', hasM, shTrip] at h
    | d :: rest2 =>
      by_cases hcd : isWs c = true ∧ isWs d = true
      · rw [show collapseWs (c :: d :: rest2) = collapseWs (d :: rest2) by
          simp [collapseWs, hcd.1, hcd.2]] at h
        exact hasM_of_suffix ⟨[c], rfl⟩ (ih h)
      · have hsplit : collapseWs (c :: d :: rest2) =
            (if isWs c = true then ' ' else c) :: collapseWs (d :: rest2) := by
          simp only [collapseWs]
          rw [if_neg]
          simpa [Bool.and_eq_true] using hcd
        rw [hsplit] at h
        simp only [hasM, Bool.or_eq_true] at h
        rcases h with h | h
        · obtain ⟨hx, t, r, i, p, tail, hM, hct, hcr, hci, hcp⟩ :=
            shTrip_inv h
        -- the head of the collapsed string is `*`, hence not whitespace
          by_cases hc : isWs c = true
          · rw [if_pos hc] at hx
            exact absurd hx (by decide)
          · rw [if_neg hc] at hx
            subst hx
            have hall : ([t, r, i, p] : Str).all (fun x => !isWs x) = true := by
              simp [ci_not_ws hct rfl rfl, ci_not_ws hcr rfl rfl,
                ci_not_ws hci rfl rfl, ci_not_ws hcp rfl rfl]
            have hpre : [t, r, i, p] <+: collapseWs (d :: rest2) := by
              rw [hM]; exact ⟨tail, rfl⟩
            obtain ⟨e2, he2⟩ := collapse_prefix_nonws hall hpre
            simp only [hasM, Bool.or_eq_true]
            left
            rw [← he2]
            exact shTrip_intro e2 rfl hct hcr hci hcp
        · exact hasM_of_suffix ⟨[c], rfl⟩ (ih h)

/-! ### Structure of `titleGo` -/

theorem not_isW_of_isWs {c : Char} (h : isWs c = true) : isW c = false := by
  simp only [isWs, Bool.or_eq_true, Bool.and_eq_true, decide_eq_true_eq] at h
  rw [Bool.eq_false_iff]
  intro hw
  simp only [isW, Bool.or_eq_true, Bool.and_eq_true, decide_eq_true_eq] at hw
  omega

theorem upperChar_ci_prop {lo up : Char} (x : Char)
    (hl : 97 ≤ lo.toNat ∧ lo.toNat ≤ 122) (hu : up.toNat + 32 = lo.toNat) :
    (upperChar x = lo ∨ upperChar x = up) ↔ (x = lo ∨ x = up) := by
  rcases upperChar_cases x with ⟨h1, h2, h3⟩ | h
  · simp only [char_eq_iff_toNat, h3]
    omega
  · rw [h]

theorem upperChar_idem (c : Char) : upperChar (upperChar c) = upperChar c := by
  rcases upperChar_cases c with ⟨h1, h2, h3⟩ | h
  · apply upperChar_eq_self
    rw [Bool.eq_false_iff]
    intro hc
    have := lower_toNat hc
    omega
  · rw [h, h]

theorem titleGo_cons (b : Bool) (c : Char) (rest : Str) :
    titleGo b (c :: rest) =
      (if !b && isW c then upperChar c else c) :: titleGo (isW c) rest := rfl

theorem mapped_or (P : Prop) [Decidable P] (c : Char) :
    (if P then upperChar c else c) = c ∨
    (if P then upperChar c else c) = upperChar c := by
  split
  · exact Or.inr rfl
  · exact Or.inl rfl

theorem isWs_mapped (P : Prop) [Decidable P] (c : Char) :
    isWs (if P then upperChar c else c) = isWs c := by
  split <;> simp [isWs_upperChar]

theorem isW_mapped (P : Prop) [Decidable P] (c : Char) :
    isW (if P then upperChar c else c) = isW c := by
  split <;> simp [isW_upperChar]

theorem isD_mapped (P : Prop) [Decidable P] (c : Char) :
    isD (if P then upperChar c else c) = isD c := by
  split <;> simp [isD_upperChar]

theorem isLT_mapped (P : Prop) [Decidable P] (c : Char) :
    isLT (if P then upperChar c else c) = isLT c := by
  split <;> simp [isLT_upperChar]

theorem mapped_eq_lit {P : Prop} [Decidable P] {x d : Char}
    (hd1 : ¬(97 ≤ d.toNat ∧ d.toNat ≤ 122))
    (hd2 : ¬(65 ≤ d.toNat ∧ d.toNat ≤ 90))
    (h : (if P then upperChar x else x) = d) : x = d := by
  rcases mapped_or P x with he | he <;> rw [he] at h
  · exact h
  · exact (upperChar_eq_lit hd1 hd2) ▸ h

theorem mapped_ci {P : Prop} [Decidable P] {x lo up : Char}
    (hl : 97 ≤ lo.toNat ∧ lo.toNat ≤ 122) (hu : up.toNat + 32 = lo.toNat)
    (h : (if P then upperChar x else x) = lo ∨
         (if P then upperChar x else x) = up) :
    x = lo ∨ x = up := by
  rcases mapped_or P x with he | he <;> rw [he] at h
  · exact h
  · exact (upperChar_ci_prop x hl hu).mp h

theorem titleGo_ws_cons {c : Char} (h : isWs c = true) (b : Bool) (rest : Str) :
    titleGo b (c :: rest) = c :: titleGo false rest := by
  rw [titleGo_cons, not_isW_of_isWs h]
  simp

theorem titleGo_dropWhile (b : Bool) (m : Str) :
    ∃ b2, (titleGo b m).dropWhile isWs = titleGo b2 (m.dropWhile isWs) := by
  induction m generalizing b with
  | nil => exact ⟨b, rfl⟩
  | cons c rest ih =>
    by_cases hc : isWs c = true
    · rw [titleGo_ws_cons hc, List.dropWhile_cons, if_pos hc,
        List.dropWhile_cons, if_pos hc]
      exact ih false
    · have hc' : isWs c = false := by simpa using hc
      refine ⟨b, ?_⟩
      rw [titleGo_cons]
      have hmap : isWs (if !b && isW c then upperChar c else c) = false := by
        rw [isWs_mapped]; exact hc'
      have hx : ¬(isWs (if !b && isW c then upperChar c else c) = true) := by
        rw [hmap]; simp
      have hx2 : ¬(isWs c = true) := by rw [hc']; simp
      rw [List.dropWhile_cons, if_neg hx, List.dropWhile_cons, if_neg hx2,
        titleGo_cons]

/-- Generic backwards transport of an occurrence through title-casing. -/
theorem hasM_titleGo {p : Str → Bool}
    (H : ∀ b2 m, p (titleGo b2 m) = true → p m = true) :
    ∀ (b : Bool) (l : Str), hasM p (titleGo b l) = true → hasM p l = true := by
  intro b l
  induction l generalizing b with
  | nil => simp [titleGo, hasM]
  | cons c rest ih =>
    rw [titleGo_cons]
    intro h
    simp only [hasM, Bool.or_eq_true] at h ⊢
    rcases h with h | h
    · exact Or.inl (H b (c :: rest) (by rw [titleGo_cons]; exact h))
    · exact Or.inr (ih (isW c) h)

/-- Whitespace-run shapes transport through title-casing whenever the tail
condition does. -/
theorem wsRunThen_titleGo {t : Str → Bool}
    (Ht : ∀ b2 m, t (titleGo b2 m) = true → t m = true) :
    ∀ (b2 : Bool) (m : Str),
      wsRunThen t (titleGo b2 m) = true → wsRunThen t m = true := by
  intro b2 m h
  match m with
  | [] => simp [titleGo, wsRunThen] at h
  | c :: rest =>
    obtain ⟨b3, hb3⟩ := titleGo_dropWhile b2 (c :: rest)
    rw [titleGo_cons] at h
    simp only [wsRunThen] at h
    rw [Bool.and_eq_true] at h
    obtain ⟨h1, h2⟩ := h
    rw [← titleGo_cons, hb3] at h2
    have h2' := Ht b3 _ h2
    rw [isWs_mapped] at h1
    simp only [wsRunThen]
    rw [Bool.and_eq_true]
    exact ⟨h1, h2'⟩

theorem shStarT_titleGo (b2 : Bool) (m : Str)
    (h : shStarT (titleGo b2 m) = true) : shStarT m = true := by
  match m with
  | [] => simp [titleGo, shStarT] at h
  | c :: rest =>
    rw [titleGo_cons] at h
    have := mapped_eq_lit (d := '*') (by decide) (by decide) (shStarT_inv h)
    rw [this]
    rfl

theorem shHashT_titleGo (b2 : Bool) (m : Str)
    (h : shHashT (titleGo b2 m) = true) : shHashT m = true := by
  match m with
  | [] => simp [titleGo, shHashT] at h
  | [c] =>
    rw [titleGo_cons] at h
    obtain ⟨h1, e, m', hm', he⟩ := shHashT_inv h
    simp [titleGo] at hm'
  | c :: d :: rest =>
    rw [titleGo_cons, titleGo_cons] at h
    obtain ⟨h1, e, m', hm', he⟩ := shHashT_inv h
    injection hm' with h2 h3
    have hc := mapped_eq_lit (d := '#') (by decide) (by decide) h1
    rw [hc]
    rw [← h2, isD_mapped] at he
    simpa [shHashT] using he

theorem shFourT_titleGo (b2 : Bool) (m : Str)
    (h : shFourT (titleGo b2 m) = true) : shFourT m = true := by
  match m with
  | [] => simp [titleGo, shFourT] at h
  | [a] => simp [titleGo, titleGo_cons, shFourT] at h
  | [a, b] => simp [titleGo, titleGo_cons, shFourT] at h
  | [a, b, c] => simp [titleGo, titleGo_cons, shFourT] at h
  | a :: b :: c :: d :: rest =>
    simp only [titleGo_cons, shFourT, isD_mapped, Bool.and_eq_true] at h
    simp [shFourT, h.1.1.1, h.1.1.2, h.1.2, h.2]

theorem shDashT_titleGo (b2 : Bool) (m : Str)
    (h : shDashT (titleGo b2 m) = true) : shDashT m = true := by
  match m with
  | [] => simp [titleGo, shDashT] at h
  | [c] =>
    rw [titleGo_cons] at h
    obtain ⟨h1, e, m', hm', he⟩ := shDashT_inv h
    simp [titleGo] at hm'
  | c :: d :: rest =>
    rw [titleGo_cons, titleGo_cons] at h
    obtain ⟨h1, e, m', hm', he⟩ := shDashT_inv h
    injection hm' with h2 h3
    have hc := mapped_eq_lit (d := '-') (by decide) (by decide) h1
    rw [hc]
    rw [← h2, isWs_mapped] at he
    simpa [shDashT] using he

theorem shTrip_titleGo (b2 : Bool) (m : Str)
    (h : shTrip (titleGo b2 m) = true) : shTrip m = true := by
  match m with
  | [] => simp [titleGo, shTrip] at h
  | [a] => simp [titleGo, titleGo_cons, shTrip] at h
  | [a, b] => simp [titleGo, titleGo_cons, shTrip] at h
  | [a, b, c] => simp [titleGo, titleGo_cons, shTrip] at h
  | [a, b, c, d] => simp [titleGo, titleGo_cons, shTrip] at h
  | a :: b :: c :: d :: e :: rest =>
    simp only [titleGo_cons] at h
    obtain ⟨hx, t, r, i, p, tail, hM, hct, hcr, hci, hcp⟩ := shTrip_inv h
    injection hM with m1 hM; injection hM with m2 hM
    injection hM with m3 hM; injection hM with m4 hM
    have ha := mapped_eq_lit (d := '*') (by decide) (by decide) hx
    subst m1; subst m2; subst m3; subst m4
    apply shTrip_intro rest ha
    · exact mapped_ci (by decide) (by decide) hct
    · exact mapped_ci (by decide) (by decide) hcr
    · exact mapped_ci (by decide) (by decide) hci
    · exact mapped_ci (by decide) (by decide) hcp

theorem hasM_shTrip_titleGo (b : Bool) (l : Str)
    (h : hasM shTrip (titleGo b l) = true) : hasM shTrip l = true :=
  hasM_titleGo shTrip_titleGo b l h

theorem hasM_shStar_titleGo (b : Bool) (l : Str)
    (h : hasM shStar (titleGo b l) = true) : hasM shStar l = true :=
  hasM_titleGo (wsRunThen_titleGo shStarT_titleGo) b l h

theorem hasM_shHash_titleGo (b : Bool) (l : Str)
    (h : hasM shHash (titleGo b l) = true) : hasM shHash l = true :=
  hasM_titleGo (wsRunThen_titleGo shHashT_titleGo) b l h

theorem hasM_shFour_titleGo (b : Bool) (l : Str)
    (h : hasM shFour (titleGo b l) = true) : hasM shFour l = true :=
  hasM_titleGo (wsRunThen_titleGo shFourT_titleGo) b l h

theorem hasM_shDash_titleGo (b : Bool) (l : Str)
    (h : hasM shDash (titleGo b l) = true) : hasM shDash l = true :=
  hasM_titleGo (wsRunThen_titleGo shDashT_titleGo) b l h

theorem titleGo_idem (b : Bool) (l : Str) :
    titleGo b (titleGo b l) = titleGo b l := by
  induction l generalizing b with
  | nil => rfl
  | cons c rest ih =>
    rw [titleGo_cons, titleGo_cons, isW_mapped]
    congr 1
    · by_cases hb : (!b && isW c) = true
      · rw [if_pos hb, if_pos (by simpa [isW_upperChar, Bool.and_eq_true] using hb)]
        exact upperChar_idem c
      · rw [if_neg hb, if_neg hb]
    · exact ih (isW c)

/-! ### Fixed points of trimming, collapsing and title-casing -/

def okPair (c : Char) : Str → Bool
  | [] => !isWs c || c = ' '
  | d :: _ => !isWs c || (c = ' ' && !isWs d)

/-- Every whitespace character is a single `' '` not followed by whitespace:
the image characterization of `collapseWs` (up to trailing spaces). -/
def isCollapsed : Str → Bool
  | [] => true
  | c :: rest => okPair c rest && isCollapsed rest

theorem okPair_of_nonws {c : Char} (h : isWs c = false) (m : Str) :
    okPair c m = true := by
  cases m <;> simp [okPair, h]

theorem okPair_congr {c x y : Char} {T T2 : Str} (h : isWs x = isWs y) :
    okPair c (x :: T) = okPair c (y :: T2) := by
  simp [okPair, h]

theorem collapse_isCollapsed (l : Str) :
    isCollapsed (collapseWs l) = true := by
  induction l with
  | nil => rfl
  | cons c rest ih =>
    match rest with
    | [] =>
      by_cases hc : isWs c = true
      · simp [collapseWs, hc, isCollapsed, okPair]
      · have hc' : isWs c = false := by simpa using hc
        simp [collapseWs, hc', isCollapsed, okPair]
    | d :: rest2 =>
      by_cases hcd : isWs c = true ∧ isWs d = true
      · rw [show collapseWs (c :: d :: rest2) = collapseWs (d :: rest2) by
          simp [collapseWs, hcd.1, hcd.2]]
        exact ih
      · have hsplit : collapseWs (c :: d :: rest2) =
            (if isWs c = true then ' ' else c) :: collapseWs (d :: rest2) := by
          simp only [collapseWs]
          rw [if_neg]
          simpa [Bool.and_eq_true] using hcd
        rw [hsplit]
        simp only [isCollapsed, Bool.and_eq_true]
        refine ⟨?_, ih⟩
        by_cases hc : isWs c = true
        · have hd : isWs d = false := by
            by_cases hd' : isWs d = true
            · exact absurd ⟨hc, hd'⟩ hcd
            · simpa using hd'
          rw [if_pos hc, collapse_cons_nonws hd]
          simp [okPair, hd]
        · have hc' : isWs c = false := by simpa using hc
          rw [if_neg hc]
          exact okPair_of_nonws hc' _

theorem collapse_eq_self {l : Str} (h : isCollapsed l = true) :
    collapseWs l = l := by
  induction l with
  | nil => rfl
  | cons c rest ih =>
    simp only [isCollapsed, Bool.and_eq_true] at h
    match rest with
    | [] =>
      simp only [okPair, Bool.or_eq_true, Bool.not_eq_true',
        decide_eq_true_eq] at h
      rcases h.1 with h1 | h1
      · simp [collapseWs, h1]
      · subst h1; simp [collapseWs]
    | d :: rest2 =>
      simp only [okPair, Bool.or_eq_true, Bool.and_eq_true,
        Bool.not_eq_true', decide_eq_true_eq] at h
      rcases h.1 with h1 | ⟨h1, h2⟩
      · rw [show collapseWs (c :: d :: rest2) =
            c :: collapseWs (d :: rest2) from collapse_cons_nonws h1 _]
        rw [ih h.2]
      · subst h1
        have : collapseWs (' ' :: d :: rest2) =
            (if isWs ' ' = true then ' ' else ' ') :: collapseWs (d :: rest2) := by
          simp only [collapseWs]
          rw [if_neg]
          simp [h2]
        rw [this, ih h.2]
        simp

theorem isCollapsed_titleGo (b : Bool) {l : Str} (h : isCollapsed l = true) :
    isCollapsed (titleGo b l) = true := by
  induction l generalizing b with
  | nil => rfl
  | cons c rest ih =>
    simp only [isCollapsed, Bool.and_eq_true] at h
    by_cases hwc : isWs c = true
    · rw [titleGo_ws_cons hwc]
      simp only [isCollapsed, Bool.and_eq_true]
      refine ⟨?_, ih false h.2⟩
      match rest with
      | [] => exact h.1
      | d :: rest2 =>
        rw [titleGo_cons]
        rw [@okPair_congr _ _ d _ rest2 (by rw [isWs_mapped])]
        exact h.1
    · have hwc' : isWs c = false := by simpa using hwc
      rw [titleGo_cons]
      simp only [isCollapsed, Bool.and_eq_true]
      refine ⟨?_, ih (isW c) h.2⟩
      apply okPair_of_nonws
      rw [isWs_mapped]
      exact hwc'

def headNW : Str → Bool
  | [] => true
  | c :: _ => !isWs c

def lastNW (l : Str) : Bool := headNW l.reverse

theorem dropWhile_eq_self_of_headNW {m : Str} (h : headNW m = true) :
    m.dropWhile isWs = m := by
  match m with
  | [] => rfl
  | c :: rest =>
    simp only [headNW, Bool.not_eq_true'] at h
    rw [List.dropWhile_cons, if_neg (by simp [h])]

theorem trim_eq_self {l : Str} (h1 : headNW l = true) (h2 : lastNW l = true) :
    trimJs l = l := by
  rw [trimJs, dropWhile_eq_self_of_headNW h1, dropWhile_eq_self_of_headNW h2,
    List.reverse_reverse]

theorem headNW_dropWhile (l : Str) : headNW (l.dropWhile isWs) = true := by
  induction l with
  | nil => rfl
  | cons c rest ih =>
    rw [List.dropWhile_cons]
    split
    · exact ih
    · rename_i hc
      simp [headNW, hc]

theorem headNW_pref {l' l : Str} (h : l' <+: l) (hl : headNW l = true) :
    headNW l' = true := by
  match l' with
  | [] => rfl
  | c :: rest =>
    obtain ⟨e, he⟩ := h
    rw [← he] at hl
    exact hl

theorem trim_prefix_of_dropWhile (l : Str) :
    trimJs l <+: l.dropWhile isWs := by
  have h1 : (l.dropWhile isWs).reverse.dropWhile isWs <:+
      (l.dropWhile isWs).reverse := List.dropWhile_suffix isWs
  have h2 := List.reverse_prefix.mpr h1
  rwa [List.reverse_reverse] at h2

theorem headNW_trim (l : Str) : headNW (trimJs l) = true :=
  headNW_pref (trim_prefix_of_dropWhile l) (headNW_dropWhile l)

theorem lastNW_trim (l : Str) : lastNW (trimJs l) = true := by
  rw [lastNW, trimJs, List.reverse_reverse]
  exact headNW_dropWhile _

theorem trim_mid (l : Str) : trimJs l <:+: l := by
  obtain ⟨e, he⟩ := trim_prefix_of_dropWhile l
  obtain ⟨a, ha⟩ := List.dropWhile_suffix (l := l) isWs
  refine ⟨a, e, ?_⟩
  rw [List.append_assoc, he, ha]

theorem headNW_collapse {l : Str} (h : headNW l = true) :
    headNW (collapseWs l) = true := by
  match l with
  | [] => rfl
  | c :: rest =>
    simp only [headNW, Bool.not_eq_true'] at h
    rw [collapse_cons_nonws h]
    simpa [headNW] using h

theorem lastNW_cons {c : Char} {m : Str} (hm : m ≠ []) :
    lastNW (c :: m) = lastNW m := by
  simp only [lastNW, List.reverse_cons]
  match hr : m.reverse with
  | [] => exact absurd (by simpa using congrArg List.reverse hr) hm
  | x :: xs => simp [headNW]

theorem lastNW_collapse {l : Str} (h : lastNW l = true) :
    lastNW (collapseWs l) = true := by
  induction l with
  | nil => rfl
  | cons c rest ih =>
    match rest with
    | [] =>
      have hc : isWs c = false := by simpa [lastNW, headNW] using h
      simp [collapseWs, hc, lastNW, headNW]
    | d :: rest2 =>
      rw [lastNW_cons (by simp)] at h
      by_cases hcd : isWs c = true ∧ isWs d = true
      · rw [show collapseWs (c :: d :: rest2) = collapseWs (d :: rest2) by
          simp [collapseWs, hcd.1, hcd.2]]
        exact ih h
      · have hsplit : collapseWs (c :: d :: rest2) =
            (if isWs c = true then ' ' else c) :: collapseWs (d :: rest2) := by
          simp only [collapseWs]
          rw [if_neg]
          simpa [Bool.and_eq_true] using hcd
        rw [hsplit, lastNW_cons (collapse_ne_nil (by simp))]
        exact ih h

theorem titleGo_ne_nil {b : Bool} {l : Str} (h : l ≠ []) :
    titleGo b l ≠ [] := by
  match l with
  | c :: rest => rw [titleGo_cons]; simp

theorem headNW_titleGo (b : Bool) {l : Str} (h : headNW l = true) :
    headNW (titleGo b l) = true := by
  match l with
  | [] => rfl
  | c :: rest =>
    rw [titleGo_cons]
    simp only [headNW, Bool.not_eq_true'] at h ⊢
    rw [isWs_mapped]
    exact h

theorem lastNW_titleGo (b : Bool) {l : Str} (h : lastNW l = true) :
    lastNW (titleGo b l) = true := by
  induction l generalizing b with
  | nil => rfl
  | cons c rest ih =>
    match rest with
    | [] =>
      have hc : isWs c = false := by simpa [lastNW, headNW] using h
      rw [titleGo_cons]
      have : isWs (if !b && isW c then upperChar c else c) = false := by
        rw [isWs_mapped]; exact hc
      simpa [titleGo, lastNW, headNW] using this
    | d :: rest2 =>
      rw [lastNW_cons (by simp)] at h
      rw [titleGo_cons, lastNW_cons (titleGo_ne_nil (by simp))]
      exact ih (isW c) h

/-! ### Line-terminator freedom is preserved along the pipeline -/

theorem noLT_cutFrom (p : Str → Bool) {l : Str} (h : noLT l = true) :
    noLT (cutFrom p l) = true :=
  noLT_sublist (cutFrom_pref p l).sublist h

theorem noLT_trim {l : Str} (h : noLT l = true) : noLT (trimJs l) = true :=
  noLT_sublist (trim_mid l).sublist h

theorem noLT_collapse {l : Str} (h : noLT l = true) :
    noLT (collapseWs l) = true := by
  induction l with
  | nil => rfl
  | cons c rest ih =>
    have hc : isLT c = false := by
      simp only [noLT, List.all_cons, Bool.and_eq_true, Bool.not_eq_true'] at h
      exact h.1
    have hrest := noLT_cons h
    match rest with
    | [] =>
      by_cases hw : isWs c = true
      · rw [show collapseWs [c] = [' '] by simp [collapseWs, hw]]
        decide
      · have hw' : isWs c = false := by simpa using hw
        rw [show collapseWs [c] = [c] by simp [collapseWs, hw']]
        simp [noLT, hc]
    | d :: rest2 =>
      by_cases hcd : isWs c = true ∧ isWs d = true
      · rw [show collapseWs (c :: d :: rest2) = collapseWs (d :: rest2) by
          simp [collapseWs, hcd.1, hcd.2]]
        exact ih hrest
      · have hsplit : collapseWs (c :: d :: rest2) =
            (if isWs c = true then ' ' else c) :: collapseWs (d :: rest2) := by
          simp only [collapseWs]
          rw [if_neg]
          simpa [Bool.and_eq_true] using hcd
        rw [hsplit]
        simp only [noLT, List.all_cons, Bool.and_eq_true, Bool.not_eq_true']
        refine ⟨?_, by simpa [noLT] using ih hrest⟩
        split
        · decide
        · exact hc

theorem noLT_titleGo (b : Bool) {l : Str} (h : noLT l = true) :
    noLT (titleGo b l) = true := by
  induction l generalizing b with
  | nil => rfl
  | cons c rest ih =>
    simp only [noLT, List.all_cons, Bool.and_eq_true, Bool.not_eq_true'] at h
    rw [titleGo_cons]
    simp only [noLT, List.all_cons, Bool.and_eq_true, Bool.not_eq_true']
    refine ⟨?_, by simpa [noLT] using ih (isW c) h.2⟩
    rw [isLT_mapped]
    exact h.1

/-! ### Assembly: one normalizer pass reaches a fixed point -/

theorem Bool_contra {a b : Bool} (tr : a = true → b = true) (h : b = false) :
    a = false := by
  cases ha : a
  · rfl
  · rw [tr ha] at h
    exact absurd h (by simp)

theorem normalizeMerchant_eq (s : Str) (hs : s ≠ []) :
    normalizeMerchant s =
      (if titleCase (collapseWs (trimJs (cutFrom matchDash (cutFrom matchFour
        (cutFrom matchHash (cutFrom matchStar (cutFrom matchTrip s))))))) = []
       then "Unknown Merchant".toList
       else titleCase (collapseWs (trimJs (cutFrom matchDash (cutFrom
         matchFour (cutFrom matchHash (cutFrom matchStar (cutFrom matchTrip
         s)))))))) := by
  rw [normalizeMerchant, if_neg hs]

/-- A normalizer output on which every stage of a second pass is the
identity. -/
theorem normalizeMerchant_fixed {y : Str}
    (hy0 : y ≠ []) (hlt : noLT y = true)
    (h1 : hasM shTrip y = false) (h2 : hasM shStar y = false)
    (h3 : hasM shHash y = false) (h4 : hasM shFour y = false)
    (h5 : hasM shDash y = false)
    (hh : headNW y = true) (hl : lastNW y = true)
    (hc : isCollapsed y = true) (ht : ∃ w, y = titleGo false w) :
    normalizeMerchant y = y := by
  have e1 : cutFrom matchTrip y = y := by
    rw [cutFrom_congr fun m hm => matchTrip_eq_sh (noLT_sublist hm.sublist hlt)]
    exact cutFrom_eq_self h1
  have e2 : cutFrom matchStar y = y := by
    rw [cutFrom_congr fun m hm => matchStar_eq_sh (noLT_sublist hm.sublist hlt)]
    exact cutFrom_eq_self h2
  have e3 : cutFrom matchHash y = y := by
    rw [cutFrom_congr fun m hm => matchHash_eq_sh (noLT_sublist hm.sublist hlt)]
    exact cutFrom_eq_self h3
  have e4 : cutFrom matchFour y = y := by
    rw [cutFrom_congr fun m hm => matchFour_eq_sh (noLT_sublist hm.sublist hlt)]
    exact cutFrom_eq_self h4
  have e5 : cutFrom matchDash y = y := by
    rw [cutFrom_congr fun m hm => matchDash_eq_sh (noLT_sublist hm.sublist hlt)]
    exact cutFrom_eq_self h5
  have e6 : trimJs y = y := trim_eq_self hh hl
  have e7 : collapseWs y = y := collapse_eq_self hc
  have e8 : titleCase y = y := by
    obtain ⟨w, hw⟩ := ht
    rw [titleCase, hw, titleGo_idem]
  rw [normalizeMerchant_eq y hy0, e1, e2, e3, e4, e5, e6, e7, e8, if_neg hy0]

/-- All facts needed by `normalizeMerchant_fixed` hold of any normalizer
output on a line-terminator-free input. -/
theorem normalizeMerchant_normal {s : Str} (hlt : noLT s = true) :
    normalizeMerchant s ≠ [] ∧ noLT (normalizeMerchant s) = true ∧
    hasM shTrip (normalizeMerchant s) = false ∧
    hasM shStar (normalizeMerchant s) = false ∧
    hasM shHash (normalizeMerchant s) = false ∧
    hasM shFour (normalizeMerchant s) = false ∧
    hasM shDash (normalizeMerchant s) = false ∧
    headNW (normalizeMerchant s) = true ∧
    lastNW (normalizeMerchant s) = true ∧
    isCollapsed (normalizeMerchant s) = true ∧
    ∃ w, normalizeMerchant s = titleGo false w := by
  by_cases hs : s = []
  · subst hs
    refine ⟨by decide, by decide, by decide, by decide, by decide, by decide,
      by decide, by decide, by decide, by decide, "Unknown Merchant".toList,
      by decide⟩
  · rw [normalizeMerchant_eq s hs]
    split
    · refine ⟨by decide, by decide, by decide, by decide, by decide, by decide,
        by decide, by decide, by decide, by decide, "Unknown Merchant".toList,
        by decide⟩
    · rename_i hne
      set z1 := cutFrom matchTrip s with hz1
      set z2 := cutFrom matchStar z1 with hz2
      set z3 := cutFrom matchHash z2 with hz3
      set z4 := cutFrom matchFour z3 with hz4
      set z5 := cutFrom matchDash z4 with hz5
      set z6 := trimJs z5 with hz6
      set z7 := collapseWs z6 with hz7
      -- line-terminator freedom along the chain
      have lt1 : noLT z1 = true := noLT_cutFrom _ hlt
      have lt2 : noLT z2 = true := noLT_cutFrom _ lt1
      have lt3 : noLT z3 = true := noLT_cutFrom _ lt2
      have lt4 : noLT z4 = true := noLT_cutFrom _ lt3
      have lt5 : noLT z5 = true := noLT_cutFrom _ lt4
      have lt6 : noLT z6 = true := noLT_trim lt5
      have lt7 : noLT z7 = true := noLT_collapse lt6
      -- the five cuts are cuts of the corresponding shape predicates
      have c1 : z1 = cutFrom shTrip s := by
        rw [hz1, cutFrom_congr fun m hm =>
          matchTrip_eq_sh (noLT_sublist hm.sublist hlt)]
      have c2 : z2 = cutFrom shStar z1 := by
        rw [hz2, cutFrom_congr fun m hm =>
          matchStar_eq_sh (noLT_sublist hm.sublist lt1)]
      have c3 : z3 = cutFrom shHash z2 := by
        rw [hz3, cutFrom_congr fun m hm =>
          matchHash_eq_sh (noLT_sublist hm.sublist lt2)]
      have c4 : z4 = cutFrom shFour z3 := by
        rw [hz4, cutFrom_congr fun m hm =>
          matchFour_eq_sh (noLT_sublist hm.sublist lt3)]
      have c5 : z5 = cutFrom shDash z4 := by
        rw [hz5, cutFrom_congr fun m hm =>
          matchDash_eq_sh (noLT_sublist hm.sublist lt4)]
      -- prefix relations between the cut stages
      have p2 : z2 <+: z1 := c2 ▸ cutFrom_pref shStar z1
      have p3 : z3 <+: z2 := c3 ▸ cutFrom_pref shHash z2
      have p4 : z4 <+: z3 := c4 ▸ cutFrom_pref shFour z3
      have p5 : z5 <+: z4 := c5 ▸ cutFrom_pref shDash z4
      -- no-occurrence facts at stage 5
      have n1 : hasM shTrip z5 = false := by
        have := c1 ▸ hasM_cutFrom_self mono_shTrip s
        exact hasM_false_of_pref mono_shTrip
          ((p5.trans p4).trans (p3.trans p2)) this
      have n2 : hasM shStar z5 = false := by
        have := c2 ▸ hasM_cutFrom_self mono_shStar z1
        exact hasM_false_of_pref mono_shStar ((p5.trans p4).trans p3) this
      have n3 : hasM shHash z5 = false := by
        have := c3 ▸ hasM_cutFrom_self mono_shHash z2
        exact hasM_false_of_pref mono_shHash (p5.trans p4) this
      have n4 : hasM shFour z5 = false := by
        have := c4 ▸ hasM_cutFrom_self mono_shFour z3
        exact hasM_false_of_pref mono_shFour p5 this
      have n5 : hasM shDash z5 = false :=
        c5 ▸ hasM_cutFrom_self mono_shDash z4
      -- … propagated through trim, collapse and title-case
      have t1 : hasM shTrip z6 = false :=
        hasM_false_of_mid mono_shTrip (trim_mid z5) n1
      have t2 : hasM shStar z6 = false :=
        hasM_false_of_mid mono_shStar (trim_mid z5) n2
      have t3 : hasM shHash z6 = false :=
        hasM_false_of_mid mono_shHash (trim_mid z5) n3
      have t4 : hasM shFour z6 = false :=
        hasM_false_of_mid mono_shFour (trim_mid z5) n4
      have t5 : hasM shDash z6 = false :=
        hasM_false_of_mid mono_shDash (trim_mid z5) n5
      have u1 : hasM shTrip z7 = false :=
        Bool_contra (hasM_shTrip_collapse z6) t1
      have u2 : hasM shStar z7 = false :=
        Bool_contra (hasM_shStar_collapse z6) t2
      have u3 : hasM shHash z7 = false :=
        Bool_contra (hasM_shHash_collapse z6) t3
      have u4 : hasM shFour z7 = false :=
        Bool_contra (hasM_shFour_collapse z6) t4
      have u5 : hasM shDash z7 = false :=
        Bool_contra (hasM_shDash_collapse z6) t5
      refine ⟨hne, ?_, ?_, ?_, ?_, ?_, ?_, ?_, ?_, ?_, z7, rfl⟩
      · exact noLT_titleGo false lt7
      · exact Bool_contra (hasM_shTrip_titleGo false z7) u1
      · exact Bool_contra (hasM_shStar_titleGo false z7) u2
      · exact Bool_contra (hasM_shHash_titleGo false z7) u3
      · exact Bool_contra (hasM_shFour_titleGo false z7) u4
      · exact Bool_contra (hasM_shDash_titleGo false z7) u5
      · exact headNW_titleGo false (headNW_collapse (headNW_trim z5))
      · exact lastNW_titleGo false (lastNW_collapse (lastNW_trim z5))
      · exact isCollapsed_titleGo false (collapse_isCollapsed z6)

/-- On a line-terminator-free input the merchant normalizer is idempotent. -/
theorem normalizeMerchant_idem_ltFree {s : Str} (h : noLT s = true) :
    normalizeMerchant (normalizeMerchant s) = normalizeMerchant s := by
  obtain ⟨hne, hlt, h1, h2, h3, h4, h5, hh, hl, hc, ht⟩ :=
    normalizeMerchant_normal h
  exact normalizeMerchant_fixed hne hlt h1 h2 h3 h4 h5 hh hl hc ht

/-! ## Calendar dates

A date is a day number in the proleptic Gregorian calendar (0 = 1970-01-01),
converted to and from `(year, month, day)` with Howard Hinnant's civil
algorithms — the same arithmetic JS `Date` uses at UTC midnight.
`daysFromCivil` also performs the JS `Date(y, m-1, d)` roll-over
normalization for out-of-range months and days. -/

def daysFromCivil (y m d : Int) : Int :=
  let y1 := y + (m - 1).fdiv 12
  let m1 := (m - 1).emod 12 + 1
  let y2 := if m1 ≤ 2 then y1 - 1 else y1
  let era := y2.fdiv 400
  let yoe := y2 - era * 400
  let mp := (m1 + 9) % 12
  let doy := (153 * mp + 2).fdiv 5 + d - 1
  let doe := yoe * 365 + yoe.fdiv 4 - yoe.fdiv 100 + doy
  era * 146097 + doe - 719468

def civilFromDays (z : Int) : Int × Int × Int :=
  let z1 := z + 719468
  let era := z1.fdiv 146097
  let doe := z1 - era * 146097
  let yoe := (doe - doe.fdiv 1460 + doe.fdiv 36524 - doe.fdiv 146096).fdiv 365
  let y := yoe + era * 400
  let doy := doe - (365 * yoe + yoe.fdiv 4 - yoe.fdiv 100)
  let mp := (5 * doy + 2).fdiv 153
  let d := doy - (153 * mp + 2).fdiv 5 + 1
  let m := if mp < 10 then mp + 3 else mp - 9
  (if m ≤ 2 then y + 1 else y, m, d)

def yearOf (z : Int) : Int := (civilFromDays z).1
def monthOf (z : Int) : Int := (civilFromDays z).2.1
def dayOf (z : Int) : Int := (civilFromDays z).2.2

example : daysFromCivil 1970 1 1 = 0 := by decide
example : daysFromCivil 2000 2 29 = 11016 := by decide
example : daysFromCivil 2000 3 1 = 11017 := by decide
example : civilFromDays 0 = (1970, 1, 1) := by decide
example : civilFromDays 11016 = (2000, 2, 29) := by decide
example : civilFromDays (daysFromCivil 2026 10 11) = (2026, 10, 11) := by decide
example : daysFromCivil 2023 2 29 = daysFromCivil 2023 3 1 := by decide
example : daysFromCivil 2024 0 15 = daysFromCivil 2023 12 15 := by decide

def padNum (w : Nat) (n : Nat) : Str :=
  let ds := Nat.toDigits 10 n
  List.replicate (w - ds.length) '0' ++ ds

/-- `toISOString().split("T")[0]` of a date at UTC midnight. -/
def isoOfDay (z : Int) : Str :=
  let c := civilFromDays z
  padNum 4 c.1.toNat ++ '-' :: padNum 2 c.2.1.toNat ++ '-' :: padNum 2 c.2.2.toNat

example : (⟨isoOfDay 0⟩ : String) = "1970-01-01" := by decide
example : (⟨isoOfDay (daysFromCivil 2026 10 11)⟩ : String) = "2026-10-11" := by decide

def isLeap (y : Int) : Bool := (y % 4 = 0 && y % 100 ≠ 0) || y % 400 = 0

def monthLen (y m : Int) : Int :=
  if m = 2 then (if isLeap y then 29 else 28)
  else if m = 4 || m = 6 || m = 9 || m = 11 then 30 else 31

def digitVal (c : Char) : Nat := c.toNat - 48

/-- A concrete instantiation of the platform's `new Date(string)` parser:
strict ISO `YYYY-MM-DD` date strings parse at UTC midnight (with calendar
validation, as in JS), everything else is an invalid date.  The pipeline's
definitions are parameterized over the platform parser; this instance is
used to build concrete witnesses. -/
def isoNativeParse (s : String) : Option Int :=
  match s.toList with
  | [y1, y2, y3, y4, s1, m1, m2, s2, d1, d2] =>
    if (isD y1 && isD y2 && isD y3 && isD y4 && s1 = '-' && isD m1 && isD m2 &&
        s2 = '-' && isD d1 && isD d2) then
      let y : Int := ((digitVal y1 * 10 + digitVal y2) * 10 + digitVal y3) * 10
        + digitVal y4
      let m : Int := digitVal m1 * 10 + digitVal m2
      let d : Int := digitVal d1 * 10 + digitVal d2
      if 1 ≤ m && m ≤ 12 && 1 ≤ d && d ≤ monthLen y m then
        some (daysFromCivil y m d)
      else none
    else none
  | _ => none

example : isoNativeParse "2099-01-01" = some (daysFromCivil 2099 1 1) := by decide
example : isoNativeParse "2024-02-31" = none := by decide
example : isoNativeParse "not a date" = none := by decide

/-! ## Regex date matchers

Anchored matchers for the date patterns of `validateAndFixDate` and
`generateReasonableDate`, with the exact greedy/backtracking semantics of
`\d{1,2}` and `\d{4}`, plus a leftmost scan (`scanFor`) implementing
`String.prototype.match`. -/

def take1Digit : Str → Option (Nat × Str)
  | a :: rest => if isD a then some (digitVal a, rest) else none
  | [] => none

def take2Digits : Str → Option (Nat × Str)
  | a :: b :: rest =>
    if isD a && isD b then some (digitVal a * 10 + digitVal b, rest) else none
  | _ => none

def take4Digits : Str → Option (Nat × Str)
  | a :: b :: c :: d :: rest =>
    if isD a && isD b && isD c && isD d then
      some (((digitVal a * 10 + digitVal b) * 10 + digitVal c) * 10
        + digitVal d, rest)
    else none
  | _ => none

def takeSepP (p : Char → Bool) : Str → Option Str
  | c :: rest => if p c then some rest else none
  | [] => none

/-- `(\d{4}) sep (\d{1,2}) sep (\d{1,2})` anchored at the start of `l`;
two-digit groups are greedy with backtracking. -/
def ymdAt (sepP : Char → Bool) (l : Str) : Option (Nat × Nat × Nat) :=
  match take4Digits l with
  | none => none
  | some (y, l2) =>
    match takeSepP sepP l2 with
    | none => none
    | some l3 =>
      let fin := fun (m : Nat) (l4 : Str) =>
        match takeSepP sepP l4 with
        | none => none
        | some l5 =>
          match take2Digits l5 with
          | some (d, _) => some (y, m, d)
          | none =>
            match take1Digit l5 with
            | some (d, _) => some (y, m, d)
            | none => none
      match take2Digits l3 with
      | some (m, l4) =>
        match fin m l4 with
        | some r => some r
        | none =>
          match take1Digit l3 with
          | some (m1, l4b) => fin m1 l4b
          | none => none
      | none =>
        match take1Digit l3 with
        | some (m1, l4b) => fin m1 l4b
        | none => none

/-- `(\d{1,2}) sep (\d{1,2}) sep (\d{4})` anchored at the start of `l`. -/
def mdyTail (sepP : Char → Bool) (g1 : Nat) (l : Str) :
    Option (Nat × Nat × Nat) :=
  match takeSepP sepP l with
  | none => none
  | some l2 =>
    let g3 := fun (g2 : Nat) (l3 : Str) =>
      match takeSepP sepP l3 with
      | none => none
      | some l4 =>
        match take4Digits l4 with
        | none => none
        | some (y, _) => some (g1, g2, y)
    match take2Digits l2 with
    | some (g2, l3) =>
      match g3 g2 l3 with
      | some r => some r
      | none =>
        match take1Digit l2 with
        | some (g2b, l3b) => g3 g2b l3b
        | none => none
    | none =>
      match take1Digit l2 with
      | some (g2b, l3b) => g3 g2b l3b
      | none => none

def mdyAt (sepP : Char → Bool) (l : Str) : Option (Nat × Nat × Nat) :=
  match take2Digits l with
  | some (g1, l2) =>
    match mdyTail sepP g1 l2 with
    | some r => some r
    | none =>
      match take1Digit l with
      | some (g1b, l2b) => mdyTail sepP g1b l2b
      | none => none
  | none =>
    match take1Digit l with
    | some (g1b, l2b) => mdyTail sepP g1b l2b
    | none => none

/-- Leftmost match: try the anchored matcher at each position in turn. -/
def scanFor (f : Str → Option α) : Str → Option α
  | [] => f []
  | c :: rest =>
    match f (c :: rest) with
    | some r => some r
    | none => scanFor f rest

def isSepUD (c : Char) : Bool := c = '_' || c = '-'
def isSlash (c : Char) : Bool := c = '/'
def isDash (c : Char) : Bool := c = '-'

example : scanFor (ymdAt isSepUD) "starbucks_receipt_2024-03-15.jpg".toList =
    some (2024, 3, 15) := by decide
example : scanFor (ymdAt isSepUD) "receipt.jpg".toList = none := by decide
example : scanFor (mdyAt isSlash) "paid 3/15/2024 thanks".toList =
    some (3, 15, 2024) := by decide
example : scanFor (mdyAt isSlash) "12-31-2024".toList = none := by decide
example : scanFor (mdyAt isDash) "12-31-2024".toList = some (12, 31, 2024) := by
  decide

/-! ## The date reconciler
(`generateReasonableDate` part_000 lines 255–320,
`validateAndFixDate` lines 220–252)

The evaluation instant `new Date()` is the parameter `today` (a day number,
at midnight UTC); `Math.floor(Math.random() * 14)` is the parameter
`randDaysAgo ∈ [0, 13]`; the platform `new Date(string)` parser is the
parameter `np`. -/

/-- First filename pattern `(\d{4})[_-](\d{1,2})[_-](\d{1,2})` with its
sanity check `2020 ≤ year ≤ currentYear ∧ 1 ≤ month ≤ 12 ∧ 1 ≤ day ≤ 31`. -/
def grdFirst (today : Int) (fl : Str) : Option Str :=
  match scanFor (ymdAt isSepUD) fl with
  | some (y, m, d) =>
    if 2020 ≤ (y : Int) && (y : Int) ≤ yearOf today && 1 ≤ m && m ≤ 12 &&
        1 ≤ d && d ≤ 31 then
      some (padNum 4 y ++ '-' :: padNum 2 m ++ '-' :: padNum 2 d)
    else none
  | none => none

/-- Second filename pattern `(\d{1,2})[_-](\d{1,2})[_-](\d{4})` with the
same sanity check. -/
def grdSecond (today : Int) (fl : Str) : Option Str :=
  match scanFor (mdyAt isSepUD) fl with
  | some (m, d, y) =>
    if 2020 ≤ (y : Int) && (y : Int) ≤ yearOf today && 1 ≤ m && m ≤ 12 &&
        1 ≤ d && d ≤ 31 then
      some (padNum 4 y ++ '-' :: padNum 2 m ++ '-' :: padNum 2 d)
    else none
  | none => none

/-- `generateReasonableDate(filename)`: filename-derived date (confidence
"medium") or a uniformly random day within the trailing 14 days
(confidence "low"). -/
def generateReasonableDate (today : Int) (randDaysAgo : Nat)
    (filename : String) : String × String :=
  match grdFirst today filename.toList with
  | some ds => (⟨ds⟩, "medium")
  | none =>
    match grdSecond today filename.toList with
    | some ds => (⟨ds⟩, "medium")
    | none => (⟨isoOfDay (today - randDaysAgo)⟩, "low")

/-- The `new Date(y, m-1, d)` fallback construction of `validateAndFixDate`:
a 4-digit year below 100 is offset by 1900, as the JS Date constructor
does. -/
def jsDateCtor (y m d : Int) : Int :=
  daysFromCivil (if 0 ≤ y && y ≤ 99 then 1900 + y else y) m d

/-- `validateAndFixDate(dateString, filename)`: native parse, then the
`MM/DD/YYYY` and `MM-DD-YYYY` textual patterns; a date outside the
plausibility window `[oneYearAgo, tomorrow]` (or a failed parse) falls back
to `generateReasonableDate`. -/
def validateAndFixDate (np : String → Option Int) (today : Int)
    (randDaysAgo : Nat) (dateString : String) (filename : String) :
    String × String :=
  let parsed : Option Int :=
    match np dateString with
    | some d => some d
    | none =>
      match scanFor (mdyAt isSlash) dateString.toList with
      | some (m, d, y) => some (jsDateCtor y m d)
      | none =>
        match scanFor (mdyAt isDash) dateString.toList with
        | some (m, d, y) => some (jsDateCtor y m d)
        | none => none
  let oneYearAgo := daysFromCivil (yearOf today - 1) (monthOf today)
    (dayOf today)
  let tomorrow := today + 1
  match parsed with
  | none => generateReasonableDate today randDaysAgo filename
  | some d =>
    if d > tomorrow || d < oneYearAgo then
      generateReasonableDate today randDaysAgo filename
    else (⟨isoOfDay d⟩, "high")

example : validateAndFixDate isoNativeParse (daysFromCivil 2026 10 11) 3
    "2099-01-01" "receipt_2020-01-01.jpg" = ("2020-01-01", "medium") := by
  decide
example : validateAndFixDate isoNativeParse (daysFromCivil 2026 10 11) 3
    "2026-10-01" "whatever.jpg" = ("2026-10-01", "high") := by decide
example : validateAndFixDate isoNativeParse (daysFromCivil 2026 10 11) 3
    "garbage" "x.png" = ("2026-10-08", "low") := by decide

/-! ## The pattern fallback extractor
(`enhancedPatternExtraction`, part_000 lines 322–383) -/

structure ExtractedData where
  merchant_name : String
  amount : ℚ
  category : String
  receipt_date : String
  confidence : String
  date_source : String
  extraction_notes : Option String
deriving Repr, DecidableEq

/-- The merchant keyword table, in source (insertion) order:
`keyword ↦ (canonical name, category, amount range)`. -/
def merchantPatterns : List (String × String × String × Int × Int) :=
  [("starbucks", "Starbucks", "Meals", 4, 12),
   ("coffee", "Coffee Shop", "Meals", 3, 8),
   ("dunkin", "Dunkin", "Meals", 3, 10),
   ("mcdonald", "McDonald's", "Meals", 5, 15),
   ("subway", "Subway", "Meals", 8, 15),
   ("chipotle", "Chipotle", "Meals", 10, 18),
   ("panera", "Panera Bread", "Meals", 8, 20),
   ("pizza", "Pizza Place", "Meals", 12, 25),
   ("restaurant", "Restaurant", "Meals", 15, 50),
   ("diner", "Diner", "Meals", 8, 25),
   ("uber", "Uber", "Travel", 8, 35),
   ("lyft", "Lyft", "Travel", 8, 35),
   ("taxi", "Taxi", "Travel", 10, 40),
   ("shell", "Shell", "Travel", 25, 80),
   ("exxon", "ExxonMobil", "Travel", 25, 80),
   ("chevron", "Chevron", "Travel", 25, 80),
   ("bp", "BP", "Travel", 25, 80),
   ("gas", "Gas Station", "Travel", 30, 70),
   ("hotel", "Hotel", "Travel", 80, 300),
   ("motel", "Motel", "Travel", 50, 150),
   ("marriott", "Marriott", "Travel", 100, 400),
   ("hilton", "Hilton", "Travel", 100, 400),
   ("delta", "Delta Air Lines", "Travel", 200, 800),
   ("american", "American Airlines", "Travel", 200, 800),
   ("southwest", "Southwest Airlines", "Travel", 150, 600),
   ("united", "United Airlines", "Travel", 200, 800),
   ("parking", "Parking", "Travel", 5, 30),
   ("office", "Office Depot", "Supplies", 15, 100),
   ("staples", "Staples", "Supplies", 15, 100),
   ("depot", "Office Depot", "Supplies", 15, 100),
   ("amazon", "Amazon", "Supplies", 10, 200),
   ("best buy", "Best Buy", "Supplies", 20, 500),
   ("costco", "Costco", "Supplies", 50, 300),
   ("walmart", "Walmart", "Supplies", 10, 150),
   ("target", "Target", "Supplies", 15, 200),
   ("fedex", "FedEx Office", "Supplies", 5, 50),
   ("ups", "UPS Store", "Supplies", 5, 50),
   ("print", "Print Shop", "Supplies", 5, 40)]

/-- `toLowerCase` restricted to the ASCII range; the merchant keywords are
all ASCII, so non-ASCII lowering differences cannot affect a keyword
match. -/
def lowerChar (c : Char) : Char :=
  if 'A' ≤ c && c ≤ 'Z' then Char.ofNat (c.toNat + 32) else c

def containsSub (needle : Str) : Str → Bool
  | [] => needle.isEmpty
  | c :: rest => needle.isPrefixOf (c :: rest) || containsSub needle rest

/-- JS `Math.round`: half-up, i.e. `⌊x + 1/2⌋`. -/
def jsRound (q : ℚ) : Int := ⌊q + 1 / 2⌋

example : jsRound (5 / 2) = 3 := by norm_num [jsRound]
example : jsRound (-1 / 2) = 0 := by norm_num [jsRound]

/-- The synthesized fallback amount
`Math.round((rA * (max - min) + min + rB) * 100) / 100`
for `rA, rB = Math.random() ∈ [0, 1)`. -/
def fallbackAmount (mn mx : Int) (rA rB : ℚ) : ℚ :=
  (jsRound ((rA * ((mx : ℚ) - (mn : ℚ)) + (mn : ℚ) + rB) * 100) : ℚ) / 100

def enhancedPatternExtraction (today : Int) (randDaysAgo : Nat) (rA rB : ℚ)
    (filename : String) : ExtractedData :=
  let lowerFilename := filename.toList.map lowerChar
  let matched := merchantPatterns.find?
    (fun e => containsSub e.1.toList lowerFilename)
  let mn : Int := match matched with
    | some e => e.2.2.2.1
    | none => 5
  let mx : Int := match matched with
    | some e => e.2.2.2.2
    | none => 50
  let dateResult := generateReasonableDate today randDaysAgo filename
  { merchant_name := match matched with
      | some e => e.2.1
      | none => "Unknown Merchant"
    amount := fallbackAmount mn mx rA rB
    category := match matched with
      | some e => e.2.2.1
      | none => "Other"
    receipt_date := dateResult.1
    confidence := dateResult.2
    date_source := "estimated"
    extraction_notes := none }

example : (enhancedPatternExtraction (daysFromCivil 2026 10 11) 2 (1/2) (1/2)
    "starbucks_receipt_2024-03-15.jpg").merchant_name = "Starbucks" := by
  decide
example : (enhancedPatternExtraction (daysFromCivil 2026 10 11) 2 (1/2) (1/2)
    "starbucks_receipt_2024-03-15.jpg").receipt_date = "2024-03-15" := by
  decide
example : (enhancedPatternExtraction (daysFromCivil 2026 10 11) 2 (1/2) (1/2)
    "starbucks_receipt_2024-03-15.jpg").amount = 85/10 := by
  show fallbackAmount 4 12 (1/2) (1/2) = 85/10
  norm_num [fallbackAmount, jsRound]
example : (enhancedPatternExtraction (daysFromCivil 2026 10 11) 2 (1/2) (1/2)
    "IMG_0042.png").merchant_name = "Unknown Merchant" := by decide

/-! ## The currency normalizer (`normalizeCurrency`, part_000 lines 385–414) -/

structure CurrencyResult where
  amount : ℚ
  currency : String
  symbol : String
deriving Repr, DecidableEq

def digitsVal (l : Str) : Nat := l.foldl (fun a c => a * 10 + digitVal c) 0

/-- The rational `m / 10 ^ e`.  All number-producing steps of the pipeline
build their values through this single constructor so that the structural
parts of a computation stay kernel-reducible. -/
def decimal (m : Int) (e : Nat) : ℚ := (m : ℚ) / 10 ^ e

/-- Leftmost match of `(\d+\.?\d*)`: starts at the first digit, takes the
maximal digit run, an optional dot, and trailing digits. -/
def numericGroup : Str → Option Str
  | [] => none
  | c :: rest =>
    if isD c then
      let d1 := (c :: rest).takeWhile isD
      let r1 := (c :: rest).dropWhile isD
      match r1 with
      | '.' :: r2 => some (d1 ++ '.' :: r2.takeWhile isD)
      | _ => some d1
    else numericGroup rest

/-- `parseFloat` of a matched `(\d+\.?\d*)` group:
`intpart.frac = (intpart·10^k + frac) / 10^k`. -/
def groupVal (g : Str) : ℚ :=
  let ip := g.takeWhile isD
  let fr := (g.dropWhile isD).drop 1
  decimal (Int.ofNat (digitsVal ip * 10 ^ fr.length + digitsVal fr)) fr.length

def isCurrencySymbol (c : Char) : Bool :=
  c = '$' || c = '€' || c = '£' || c = '¥' || c = '₹'

def symbolFind : Str → Option Char
  | [] => none
  | c :: rest => if isCurrencySymbol c then some c else symbolFind rest

def symbolMap (c : Char) : Option String :=
  if c = '$' then some "USD"
  else if c = '€' then some "EUR"
  else if c = '£' then some "GBP"
  else if c = '¥' then some "JPY"
  else if c = '₹' then some "INR"
  else none

def normalizeCurrency (amountStr : String) (currency : String) :
    CurrencyResult :=
  let l := amountStr.toList
  let numericValue : ℚ :=
    match numericGroup l with
    | some g => groupVal g
    | none => 0
  let detectedCurrency :=
    match symbolFind l with
    | some sym =>
      match symbolMap sym with
      | some code => code
      | none => currency
    | none => currency
  { amount := numericValue
    currency := detectedCurrency
    symbol := match symbolFind l with
      | some sym => ⟨[sym]⟩
      | none => "$" }

example : (normalizeCurrency "12.50" "USD").amount = 25/2 := by
  show decimal 1250 2 = 25/2
  norm_num [decimal]
example : (normalizeCurrency "€ 9.99" "USD").currency = "EUR" := by decide
example : (normalizeCurrency "€ 9.99" "USD").symbol = "€" := by decide
example : (normalizeCurrency "€ 9.99" "USD").amount = 999/100 := by
  show decimal 999 2 = 999/100
  norm_num [decimal]
example : (normalizeCurrency "abc" "USD").amount = 0 := by
  show (0 : ℚ) = 0
  rfl
example : (normalizeCurrency "-5" "USD").amount = 5 := by
  show decimal 5 0 = 5
  norm_num [decimal]
example : (normalizeCurrency "1.2.3" "USD").amount = 6/5 := by
  show decimal 12 1 = 6/5
  norm_num [decimal]
example : (normalizeCurrency "1.2.3" "USD").symbol = "$" := by decide

/-! ## `parseFloat` on strings

Leading whitespace, an optional sign, then `digits[.digits]` or `.digits`;
`none` models `NaN`.  (The `Infinity` literal and exponent notation of JS
`parseFloat` are not modelled; no value of this pipeline exercises them.) -/

def jsParseFloat (s : String) : Option (Int × Nat) :=
  let l := s.toList.dropWhile isWs
  let sgn : Int := match l with
    | '-' :: _ => -1
    | _ => 1
  let l2 : Str := match l with
    | '-' :: r => r
    | '+' :: r => r
    | _ => l
  match l2 with
  | c :: _ =>
    if isD c then
      let ip := l2.takeWhile isD
      let r1 := l2.dropWhile isD
      let fr : Str := match r1 with
        | '.' :: r2 => r2.takeWhile isD
        | _ => []
      some (sgn * Int.ofNat (digitsVal ip * 10 ^ fr.length + digitsVal fr),
        fr.length)
    else if c = '.' then
      match l2 with
      | _ :: r2 =>
        let fr := r2.takeWhile isD
        if fr = [] then none
        else some (sgn * Int.ofNat (digitsVal fr), fr.length)
      | [] => none
    else none
  | [] => none

example : jsParseFloat "12.50" = some (1250, 2) := by decide
example : jsParseFloat "-5" = some (-5, 0) := by decide
example : jsParseFloat "abc" = none := by decide
example : jsParseFloat "  .5x" = some (5, 1) := by decide
example : jsParseFloat "undefined" = none := by decide

/-! ## JSON values and `JSON.parse`

Numbers are stored structurally as a mantissa and a power-of-ten
denominator (`num m e` denotes `m / 10 ^ e`), so parsed values remain
kernel-computable; `decimal` interprets them in `ℚ`. -/

inductive Json where
  | null
  | bool (b : Bool)
  | num (m : Int) (e : Nat)
  | str (s : String)
  | arr (elems : List Json)
  | obj (fields : List (String × Json))
deriving Repr

def jsonWsChar (c : Char) : Bool :=
  c = ' ' || c = '\t' || c = '\n' || c = '\r'

def parseHexDigit (c : Char) : Option Nat :=
  if isD c then some (digitVal c)
  else if 'a' ≤ c && c ≤ 'f' then some (c.toNat - 87)
  else if 'A' ≤ c && c ≤ 'F' then some (c.toNat - 55)
  else none

/-- JSON string body after the opening quote; returns the decoded
characters and the remainder after the closing quote.  (`\u` escapes decode
single code units; surrogate-pair recombination is not modelled.) -/
def parseStrBody : Nat → Str → Option (Str × Str)
  | 0, _ => none
  | _ + 1, [] => none
  | fuel + 1, c :: rest =>
    if c = '"' then some ([], rest)
    else if c = '\\' then
      match rest with
      | e :: r =>
        let esc : Option Char :=
          if e = '"' then some '"'
          else if e = '\\' then some '\\'
          else if e = '/' then some '/'
          else if e = 'n' then some '\n'
          else if e = 't' then some '\t'
          else if e = 'r' then some '\r'
          else if e = 'b' then some '\x08'
          else if e = 'f' then some '\x0c'
          else none
        match esc with
        | some ec =>
          match parseStrBody fuel r with
          | some (s, r2) => some (ec :: s, r2)
          | none => none
        | none =>
          if e = 'u' then
            match r with
            | h1 :: h2 :: h3 :: h4 :: r2 =>
              match parseHexDigit h1, parseHexDigit h2, parseHexDigit h3,
                parseHexDigit h4 with
              | some a, some b, some c2, some d =>
                match parseStrBody fuel r2 with
                | some (s, r3) =>
                  some (Char.ofNat (((a * 16 + b) * 16 + c2) * 16 + d) :: s,
                    r3)
                | none => none
              | _, _, _, _ => none
            | _ => none
          else none
      | [] => none
    else if c.toNat < 32 then none
    else
      match parseStrBody fuel rest with
      | some (s, r2) => some (c :: s, r2)
      | none => none

/-- A JSON number: `-?int frac? exp?`, rejecting leading zeros; the result
is normalized to a mantissa/power-of-ten pair. -/
def parseNumber (l : Str) : Option (Json × Str) :=
  let neg : Bool := match l with
    | '-' :: _ => true
    | _ => false
  let l1 : Str := match l with
    | '-' :: r => r
    | _ => l
  let ipDigits := l1.takeWhile isD
  if ipDigits = [] then none
  else if 1 < ipDigits.length && ipDigits.head? = some '0' then none
  else
    let l2 := l1.dropWhile isD
    let hasDot : Bool := match l2 with
      | '.' :: _ => true
      | _ => false
    let frDigits : Str := match l2 with
      | '.' :: r => r.takeWhile isD
      | _ => []
    let l3 : Str := match l2 with
      | '.' :: r => r.dropWhile isD
      | _ => l2
    if hasDot && frDigits.isEmpty then none
    else
      let hasExp : Bool := match l3 with
        | 'e' :: _ => true
        | 'E' :: _ => true
        | _ => false
      let expBody : Str := match l3 with
        | _ :: r => if hasExp then r else []
        | [] => []
      let eneg : Bool := match expBody with
        | '-' :: _ => true
        | _ => false
      let eds : Str := match expBody with
        | '-' :: r => r.takeWhile isD
        | '+' :: r => r.takeWhile isD
        | _ => expBody.takeWhile isD
      let l4 : Str := match expBody with
        | '-' :: r => r.dropWhile isD
        | '+' :: r => r.dropWhile isD
        | _ => expBody.dropWhile isD
      if hasExp && eds.isEmpty then none
      else
        let rest := if hasExp then l4 else l3
        let mant0 : Nat := digitsVal ipDigits * 10 ^ frDigits.length +
          digitsVal frDigits
        let mant : Int := if neg then -(mant0 : Int) else (mant0 : Int)
        let expv : Int := if hasExp then
            (if eneg then -(digitsVal eds : Int) else (digitsVal eds : Int))
          else 0
        let eAdj : Int := expv - frDigits.length
        if 0 ≤ eAdj then some (Json.num (mant * 10 ^ eAdj.toNat) 0, rest)
        else some (Json.num mant (-eAdj).toNat, rest)

def parseMembersGo (rec : Str → Option (Json × Str)) :
    Nat → Str → List (String × Json) → Option (Json × Str)
  | 0, _, _ => none
  | fuel + 1, l, acc =>
    let l1 := l.dropWhile jsonWsChar
    match l1 with
    | '"' :: r =>
      match parseStrBody (r.length + 1) r with
      | none => none
      | some (key, r2) =>
        match r2.dropWhile jsonWsChar with
        | ':' :: r4 =>
          match rec r4 with
          | none => none
          | some (v, r5) =>
            match r5.dropWhile jsonWsChar with
            | ',' :: r7 => parseMembersGo rec fuel r7 (acc ++ [(⟨key⟩, v)])
            | '}' :: r7 => some (Json.obj (acc ++ [(⟨key⟩, v)]), r7)
            | _ => none
        | _ => none
    | _ => none

def parseElemsGo (rec : Str → Option (Json × Str)) :
    Nat → Str → List Json → Option (Json × Str)
  | 0, _, _ => none
  | fuel + 1, l, acc =>
    match rec l with
    | none => none
    | some (v, r) =>
      match r.dropWhile jsonWsChar with
      | ',' :: r2 => parseElemsGo rec fuel r2 (acc ++ [v])
      | ']' :: r2 => some (Json.arr (acc ++ [v]), r2)
      | _ => none

def parseValue : Nat → Str → Option (Json × Str)
  | 0, _ => none
  | fuel + 1, l =>
    let l1 := l.dropWhile jsonWsChar
    match l1 with
    | '"' :: r =>
      match parseStrBody (r.length + 1) r with
      | some (s, rest) => some (Json.str ⟨s⟩, rest)
      | none => none
    | '{' :: r =>
      (match r.dropWhile jsonWsChar with
       | '}' :: r2 => some (Json.obj [], r2)
       | _ => parseMembersGo (parseValue fuel) (r.length + 1) r [])
    | '[' :: r =>
      (match r.dropWhile jsonWsChar with
       | ']' :: r2 => some (Json.arr [], r2)
       | _ => parseElemsGo (parseValue fuel) (r.length + 1) r [])
    | 't' :: 'r' :: 'u' :: 'e' :: r => some (Json.bool true, r)
    | 'f' :: 'a' :: 'l' :: 's' :: 'e' :: r => some (Json.bool false, r)
    | 'n' :: 'u' :: 'l' :: 'l' :: r => some (Json.null, r)
    | _ => parseNumber l1

/-- `JSON.parse`: the whole input must be consumed (up to whitespace). -/
def jsonParse (s : String) : Option Json :=
  match parseValue (s.length + 1) s.toList with
  | some (v, rest) =>
    if rest.dropWhile jsonWsChar = [] then some v else none
  | none => none

example : jsonParse "null" = some Json.null := rfl
example : jsonParse "123" = some (Json.num 123 0) := rfl
example : jsonParse "12.5e1" = some (Json.num 125 0) := rfl
example : jsonParse "\x7b\"a\": 1, \"b\": \"x\"\x7d" =
    some (Json.obj [("a", Json.num 1 0), ("b", Json.str "x")]) := rfl
example : jsonParse "\x7b\"a\":1," = none := rfl
example : jsonParse "[1, [2]]" =
    some (Json.arr [Json.num 1 0, Json.arr [Json.num 2 0]]) := rfl
example : jsonParse "01" = none := rfl

/-- Property access `obj.name`: for objects, the last binding of the key
(duplicate keys overwrite in `JSON.parse`); `none` models `undefined`, and
other primitives have no own properties. -/
def getField (j : Json) (name : String) : Option Json :=
  match j with
  | Json.obj fields =>
    (fields.reverse.find? (fun f => f.1 = name)).map (fun f => f.2)
  | _ => none

def jsTruthy : Option Json → Bool
  | none => false
  | some Json.null => false
  | some (Json.bool b) => b
  | some (Json.num m _) => !(m = 0)
  | some (Json.str s) => !(s = "")
  | some (Json.arr _) => true
  | some (Json.obj _) => true

/-- Strip trailing zero decimals: `(m, e)` with `m / 10 ^ e` in lowest
power-of-ten terms. -/
def stripZeros : Int → Nat → Int × Nat
  | m, 0 => (m, 0)
  | m, e + 1 => if m % 10 = 0 then stripZeros (m / 10) e else (m, e + 1)

/-- JS `String(number)` for decimal values of modest magnitude (JS switches
to exponent notation beyond `1e21`/`1e-7`; no pipeline value does). -/
def jsNumToString (m : Int) (e : Nat) : String :=
  if m = 0 then "0"
  else
    let p := stripZeros m e
    let sign : Str := if p.1 < 0 then ['-'] else []
    if p.2 = 0 then ⟨sign ++ Nat.toDigits 10 p.1.natAbs⟩
    else
      let digits := padNum (p.2 + 1) p.1.natAbs
      ⟨sign ++ digits.take (digits.length - p.2) ++
        '.' :: digits.drop (digits.length - p.2)⟩

example : jsNumToString 1250 2 = "12.5" := by decide
example : jsNumToString (-5) 0 = "-5" := by decide
example : jsNumToString 5 1 = "0.5" := by decide

/-- One-level element rendering for `Array.prototype.toString` (`null`
renders empty inside arrays; nested structures are approximated, no claim
exercises them). -/
def jsArrElemStr (x : Json) : Str :=
  match x with
  | Json.null => []
  | Json.bool b => if b then "true".toList else "false".toList
  | Json.num m e => (jsNumToString m e).toList
  | Json.str s => s.toList
  | Json.obj _ => "[object Object]".toList
  | Json.arr _ => []

/-- JS `String(x)`. -/
def jsToStringJ (j : Json) : String :=
  match j with
  | Json.null => "null"
  | Json.bool b => if b then "true" else "false"
  | Json.num m e => jsNumToString m e
  | Json.str s => s
  | Json.obj _ => "[object Object]"
  | Json.arr xs => ⟨List.intercalate [','] (xs.map jsArrElemStr)⟩

def jsToString : Option Json → String
  | none => "undefined"
  | some j => jsToStringJ j

/-! ## The vision extractor (`aiOCRExtraction`, part_000 lines 31–218)

The reply is untrusted text: the code locates the first balanced-brace-free
block `\{[\s\S]*\}` (from the first `{` that has a `}` after it, to the
last `}`; `[\s\S]` spans line terminators), else parses the whole trimmed
reply. -/

/-- Keep the prefix of `l` up to and including the last `}`. -/
def upToLastBrace (l : Str) : Option Str :=
  let r := l.reverse.dropWhile (fun c => !(c = '}'))
  if r.isEmpty then none else some r.reverse

/-- Leftmost match of `/\{[\s\S]*\}/`. -/
def findBrace : Str → Option Str
  | [] => none
  | c :: rest =>
    if c = '{' then
      match upToLastBrace (c :: rest) with
      | some sub => some sub
      | none => findBrace rest
    else findBrace rest

/-- `content.trim()` followed by the JSON block search, falling back to the
whole trimmed content. -/
def extractCandidate (content : Str) : Str :=
  let clean := trimJs content
  match findBrace clean with
  | some sub => sub
  | none => clean

example : (⟨extractCandidate "Here is the data: \x7b\"a\":1\x7d done".toList⟩ :
    String) = "\x7b\"a\":1\x7d" := by decide
example : (⟨extractCandidate "  123  ".toList⟩ : String) = "123" := by decide

/-- `String(extractedData.merchant_name || "Unknown Merchant").trim()`. -/
def validatedMerchant (v : Option Json) : String :=
  ⟨trimJs (jsToString
    (if jsTruthy v then v else some (Json.str "Unknown Merchant"))).toList⟩

/-- `parseFloat(extractedData.amount)`: the argument is coerced to a string
first; a JSON number round-trips to its own value. -/
def jsParseFloatJ (v : Option Json) : Option (Int × Nat) :=
  match v with
  | some (Json.num m e) => some (m, e)
  | _ => jsParseFloat (jsToString v)

/-- `parseFloat(…) || 0`: `NaN` coerces to `0` (and `0`/`-0` stay `0`). -/
def orZero : Option (Int × Nat) → ℚ
  | none => 0
  | some (m, e) => decimal m e

def categoryList : List String := ["Meals", "Travel", "Supplies", "Other"]

def confidenceList : List String := ["high", "medium", "low"]

/-- `["Meals","Travel","Supplies","Other"].includes(x) ? x : "Other"`. -/
def coerceCategory (v : Option Json) : String :=
  match v with
  | some (Json.str c) => if c ∈ categoryList then c else "Other"
  | _ => "Other"

/-- `["high","medium","low"].includes(x) ? x : "medium"`. -/
def coerceConfidence (v : Option Json) : String :=
  match v with
  | some (Json.str c) => if c ∈ confidenceList then c else "medium"
  | _ => "medium"

/-- `validateAndFixDate(extractedData.receipt_date, filename)` on the raw
field.  A non-string field falls through to `generateReasonableDate`: for
`undefined`/`null`/objects, `dateString.match` throws inside
`validateAndFixDate`'s own try/catch; a numeric field is interpreted as an
epoch-millisecond timestamp, which for any JSON-plausible magnitude falls
outside the plausibility window.  (A number within roughly a day of the
current epoch-millisecond count would be accepted by JS; that razor-edge
case is not modelled.) -/
def validateAndFixDateJson (np : String → Option Int) (today : Int)
    (randDaysAgo : Nat) (v : Option Json) (filename : String) :
    String × String :=
  match v with
  | some (Json.str s) => validateAndFixDate np today randDaysAgo s filename
  | _ => generateReasonableDate today randDaysAgo filename

/-- `extractedData.extraction_notes || "Extracted using AI vision"`. -/
def validatedNotes (v : Option Json) : String :=
  jsToString (if jsTruthy v then v else
    some (Json.str "Extracted using AI vision"))

/-- Field validation of the parsed reply (part_000 lines 170–193);
a `null` reply throws on the first property access, which the enclosing
try/catch chain converts into a fallback invocation. -/
def validateVisionData (np : String → Option Int) (today : Int)
    (randDaysAgo : Nat) (j : Json) (filename : String) :
    Except String ExtractedData :=
  match j with
  | Json.null => Except.error "TypeError: cannot read properties of null"
  | _ =>
    Except.ok
      { merchant_name := validatedMerchant (getField j "merchant_name")
        amount := orZero (jsParseFloatJ (getField j "amount"))
        category := coerceCategory (getField j "category")
        receipt_date := (validateAndFixDateJson np today randDaysAgo
          (getField j "receipt_date") filename).1
        confidence := coerceConfidence (getField j "confidence")
        date_source := "ai_vision"
        extraction_notes :=
          some (validatedNotes (getField j "extraction_notes")) }

/-- The per-invocation environment of `aiOCRExtraction`: the outcomes of the
external collaborators and the random draws.  `fetchOk` is the image fetch
plus content-type check; `visionReply` is the OpenAI call, with `Except.ok
none` modelling a reply without message content. -/
structure OcrEnv where
  fetchOk : Except String Unit
  visionReply : Except String (Option String)
  nativeParse : String → Option Int
  today : Int
  randDaysAgo : Nat
  randA : ℚ
  randB : ℚ

/-- The body of `aiOCRExtraction`'s `try` block: any `Except.error` is an
exception reaching the outer catch. -/
def visionAttempt (env : OcrEnv) (filename : String) :
    Except String ExtractedData :=
  match env.fetchOk with
  | Except.error e => Except.error e
  | Except.ok _ =>
    match env.visionReply with
    | Except.error e => Except.error e
    | Except.ok none => Except.error "No content in OpenAI response"
    | Except.ok (some content) =>
      match jsonParse ⟨extractCandidate content.toList⟩ with
      | none => Except.error "Invalid JSON response from vision API"
      | some j =>
        validateVisionData env.nativeParse env.today env.randDaysAgo j
          filename

/-- `aiOCRExtraction` (part_000 lines 31–218): the whole vision path runs in
a try/catch whose catch returns `enhancedPatternExtraction(filename)`. -/
def aiOCRExtraction (env : OcrEnv) (filename : String) : ExtractedData :=
  match visionAttempt env filename with
  | Except.ok r => r
  | Except.error _ =>
    enhancedPatternExtraction env.today env.randDaysAgo env.randA env.randB
      filename

/-! ## The orchestrator's confidence mapping (part_001 lines 100–109) -/

/-- `confidence === "high" ? 0.9 : confidence === "medium" ? 0.7 : 0.5`. -/
def confidenceScore (c : String) : ℚ :=
  if c = "high" then 9/10 else if c = "medium" then 7/10 else 1/2

/-- `needsReview = confidence < 0.72`. -/
def needsReview (c : String) : Bool := confidenceScore c < 72/100

/-! ## The duplicate detector (`checkForDuplicate`, part_000 lines 477–504)

The Prisma store is a list of persisted receipts; a lookup failure is the
`lookupError` flag (the `catch` branch).  `receiptDate` is stored as a
parsed day number (the route stores `new Date(date)`). -/

structure Receipt where
  userId : Int
  merchantName : String
  amount : ℚ
  receiptDate : Int
  createdAt : Int

/-- The Prisma `where` clause: identical tuple, created strictly within the
trailing 90 days. -/
def duplicatePred (now : Int) (userId : Int) (merchant : String)
    (amount : ℚ) (dateVal : Int) (r : Receipt) : Prop :=
  r.userId = userId ∧ r.merchantName = merchant ∧ r.amount = amount ∧
  r.receiptDate = dateVal ∧ r.createdAt > now - 90

instance (now userId merchant amount dateVal) (r : Receipt) :
    Decidable (duplicatePred now userId merchant amount dateVal r) := by
  unfold duplicatePred
  infer_instance

def checkForDuplicate (db : List Receipt) (lookupError : Bool) (now : Int)
    (userId : Int) (merchant : String) (amount : ℚ) (dateVal : Int) : Bool :=
  if lookupError then false
  else (db.find? (fun r =>
    decide (duplicatePred now userId merchant amount dateVal r))).isSome

def replyC5 : String :=
  "Here is the data: \x7b\"merchant_name\":\"UBER\",\"amount\":\"12.50\",\"category\":\"Travel\",\"receipt_date\":\"2099-01-01\",\"confidence\":\"high\"\x7d"

def envC5 (randDaysAgo : Nat) (rA rB : ℚ) : OcrEnv :=
  { fetchOk := Except.ok ()
    visionReply := Except.ok (some replyC5)
    nativeParse := isoNativeParse
    today := daysFromCivil 2026 10 11
    randDaysAgo := randDaysAgo
    randA := rA
    randB := rB }

example : (aiOCRExtraction (envC5 3 0 0) "receipt.jpg").merchant_name =
    "UBER" := by decide
example : (aiOCRExtraction (envC5 3 0 0) "receipt.jpg").category =
    "Travel" := by decide
example : (aiOCRExtraction (envC5 3 0 0) "receipt.jpg").confidence =
    "high" := by decide
example : (aiOCRExtraction (envC5 3 0 0) "receipt.jpg").date_source =
    "ai_vision" := by decide
example : (aiOCRExtraction (envC5 3 0 0) "receipt.jpg").receipt_date =
    "2026-10-08" := by decide
example : (aiOCRExtraction (envC5 3 0 0) "receipt.jpg").amount = 25/2 := by
  show decimal 1250 2 = 25/2
  norm_num [decimal]

/-! ## Helper lemmas about the pipeline -/

theorem merchantPatterns_entry_ok :
    ∀ e ∈ merchantPatterns, (0 : Int) < e.2.2.2.1 ∧ e.2.2.2.1 ≤ e.2.2.2.2 ∧
      e.2.2.1 ∈ categoryList := by decide

theorem coerceCategory_mem (v : Option Json) :
    coerceCategory v ∈ categoryList := by
  unfold coerceCategory
  split
  · split
    · assumption
    · decide
  · decide

theorem coerceConfidence_mem (v : Option Json) :
    coerceConfidence v ∈ confidenceList := by
  unfold coerceConfidence
  split
  · split
    · assumption
    · decide
  · decide

theorem validateVisionData_ok {np : String → Option Int} {today : Int}
    {r : Nat} {j : Json} {fn : String} {rec : ExtractedData}
    (h : validateVisionData np today r j fn = Except.ok rec) :
    rec.merchant_name = validatedMerchant (getField j "merchant_name") ∧
    rec.amount = orZero (jsParseFloatJ (getField j "amount")) ∧
    rec.category = coerceCategory (getField j "category") ∧
    rec.receipt_date = (validateAndFixDateJson np today r
      (getField j "receipt_date") fn).1 ∧
    rec.confidence = coerceConfidence (getField j "confidence") ∧
    rec.date_source = "ai_vision" := by
  unfold validateVisionData at h
  split at h
  · simp at h
  · injection h with h2
    subst h2
    exact ⟨rfl, rfl, rfl, rfl, rfl, rfl⟩

theorem visionAttempt_ok {env : OcrEnv} {filename : String}
    {r : ExtractedData} (h : visionAttempt env filename = Except.ok r) :
    ∃ j, validateVisionData env.nativeParse env.today env.randDaysAgo j
      filename = Except.ok r := by
  unfold visionAttempt at h
  split at h
  · simp at h
  · split at h
    · simp at h
    · simp at h
    · split at h
      · simp at h
      · exact ⟨_, h⟩

theorem enhancedPattern_category (today : Int) (r : Nat) (rA rB : ℚ)
    (fn : String) :
    (enhancedPatternExtraction today r rA rB fn).category ∈ categoryList := by
  show (match merchantPatterns.find? (fun e => containsSub e.1.toList
      (fn.toList.map lowerChar)) with
    | some e => e.2.2.1
    | none => "Other") ∈ categoryList
  cases hf : merchantPatterns.find? (fun e => containsSub e.1.toList
      (fn.toList.map lowerChar)) with
  | none => decide
  | some e =>
    exact (merchantPatterns_entry_ok e (List.mem_of_find?_eq_some hf)).2.2

theorem aiOCR_of_error {env : OcrEnv} {filename : String} {e : String}
    (h : visionAttempt env filename = Except.error e) :
    aiOCRExtraction env filename =
      enhancedPatternExtraction env.today env.randDaysAgo env.randA env.randB
        filename := by
  unfold aiOCRExtraction
  rw [h]

/-! ## Claim C2 -/

def envFetchFail : OcrEnv :=
  { fetchOk := Except.error "Failed to fetch image: 404"
    visionReply := Except.error "not reached"
    nativeParse := isoNativeParse
    today := daysFromCivil 2026 10 11
    randDaysAgo := 3
    randA := 0
    randB := 0 }

def envParseFail : OcrEnv :=
  { fetchOk := Except.ok ()
    visionReply := Except.ok (some "I could not read this receipt, sorry!")
    nativeParse := isoNativeParse
    today := daysFromCivil 2026 10 11
    randDaysAgo := 3
    randA := 0
    randB := 0 }

/-- C2: for every input, the extraction step never raises: the vision path
either succeeds with a validated record, or any error anywhere in the
fetch/call/parse chain yields exactly the deterministic pattern-fallback
record; in particular a fetch failure, a model-call failure, a missing
reply content, and an unparseable reply each produce the fallback record. -/
theorem claim_C2 :
    (∀ (env : OcrEnv) (filename : String),
      (∃ r, visionAttempt env filename = Except.ok r ∧
        aiOCRExtraction env filename = r) ∨
      aiOCRExtraction env filename =
        enhancedPatternExtraction env.today env.randDaysAgo env.randA
          env.randB filename) ∧
    (∀ (env : OcrEnv) (filename : String) (e : String),
      env.fetchOk = Except.error e →
      aiOCRExtraction env filename =
        enhancedPatternExtraction env.today env.randDaysAgo env.randA
          env.randB filename) ∧
    (∀ (env : OcrEnv) (filename : String) (e : String),
      env.visionReply = Except.error e →
      aiOCRExtraction env filename =
        enhancedPatternExtraction env.today env.randDaysAgo env.randA
          env.randB filename) ∧
    (∀ (env : OcrEnv) (filename : String),
      env.visionReply = Except.ok none →
      aiOCRExtraction env filename =
        enhancedPatternExtraction env.today env.randDaysAgo env.randA
          env.randB filename) ∧
    (∀ (env : OcrEnv) (filename : String) (content : String),
      env.visionReply = Except.ok (some content) →
      jsonParse ⟨extractCandidate content.toList⟩ = none →
      aiOCRExtraction env filename =
        enhancedPatternExtraction env.today env.randDaysAgo env.randA
          env.randB filename) := by
  refine ⟨?_, ?_, ?_, ?_, ?_⟩
  · intro env filename
    cases hv : visionAttempt env filename with
    | ok r =>
      left
      refine ⟨r, rfl, ?_⟩
      unfold aiOCRExtraction
      rw [hv]
    | error e => exact Or.inr (aiOCR_of_error hv)
  · intro env filename e h
    apply aiOCR_of_error (e := e)
    unfold visionAttempt
    rw [h]
  · intro env filename e h
    cases hf : env.fetchOk with
    | error e2 =>
      apply aiOCR_of_error (e := e2)
      unfold visionAttempt
      rw [hf]
    | ok u =>
      apply aiOCR_of_error (e := e)
      unfold visionAttempt
      rw [hf, h]
  · intro env filename h
    cases hf : env.fetchOk with
    | error e2 =>
      apply aiOCR_of_error (e := e2)
      unfold visionAttempt
      rw [hf]
    | ok u =>
      apply aiOCR_of_error (e := "No content in OpenAI response")
      unfold visionAttempt
      rw [hf, h]
  · intro env filename content h hp
    cases hf : env.fetchOk with
    | error e2 =>
      apply aiOCR_of_error (e := e2)
      unfold visionAttempt
      rw [hf]
    | ok u =>
      apply aiOCR_of_error (e := "Invalid JSON response from vision API")
      unfold visionAttempt
      rw [hf, h]
      simp only [hp]

/-- C2 witness: a concrete fetch failure and a concrete unparseable reply
both yield the fallback record. -/
theorem claim_C2_witness :
    aiOCRExtraction envFetchFail "starbucks.jpg" =
      enhancedPatternExtraction envFetchFail.today envFetchFail.randDaysAgo
        envFetchFail.randA envFetchFail.randB "starbucks.jpg" ∧
    aiOCRExtraction envParseFail "starbucks.jpg" =
      enhancedPatternExtraction envParseFail.today envParseFail.randDaysAgo
        envParseFail.randA envParseFail.randB "starbucks.jpg" :=
  ⟨claim_C2.2.1 envFetchFail "starbucks.jpg" "Failed to fetch image: 404" rfl,
   claim_C2.2.2.2.2 envParseFail "starbucks.jpg"
     "I could not read this receipt, sorry!" rfl rfl⟩

/-! ## Claim C3 -/

/-- C3: the orchestrator's numeric confidence score is exactly one of
{0.9, 0.7, 0.5} (high→0.9, medium→0.7, otherwise 0.5), and `needsReview`
holds iff the score is below 0.72, equivalently iff the categorical
confidence is not "high". -/
theorem claim_C3 (c : String) :
    (confidenceScore c = 9/10 ∨ confidenceScore c = 7/10 ∨
      confidenceScore c = 1/2) ∧
    confidenceScore "high" = 9/10 ∧
    confidenceScore "medium" = 7/10 ∧
    (∀ c2 : String, c2 ≠ "high" → c2 ≠ "medium" → confidenceScore c2 = 1/2) ∧
    (needsReview c = true ↔ confidenceScore c < 72/100) ∧
    (needsReview c = true ↔ c ≠ "high") := by
  refine ⟨?_, rfl, rfl, ?_, by simp [needsReview], ?_⟩
  · by_cases h1 : c = "high"
    · exact Or.inl (by rw [h1]; rfl)
    · by_cases h2 : c = "medium"
      · exact Or.inr (Or.inl (by rw [h2]; rfl))
      · refine Or.inr (Or.inr ?_)
        unfold confidenceScore
        rw [if_neg h1, if_neg h2]
  · intro c2 g1 g2
    unfold confidenceScore
    rw [if_neg g1, if_neg g2]
  · by_cases h1 : c = "high"
    · have e1 : confidenceScore c = 9/10 := by rw [h1]; rfl
      simp only [needsReview, e1, decide_eq_true_eq]
      constructor
      · intro hx
        norm_num at hx
      · intro hx
        exact absurd h1 hx
    · by_cases h2 : c = "medium"
      · have e1 : confidenceScore c = 7/10 := by rw [h2]; rfl
        simp only [needsReview, e1, decide_eq_true_eq]
        constructor
        · intro _
          exact h1
        · intro _
          norm_num
      · have e1 : confidenceScore c = 1/2 := by
          unfold confidenceScore
          rw [if_neg h1, if_neg h2]
        simp only [needsReview, e1, decide_eq_true_eq]
        constructor
        · intro _
          exact h1
        · intro _
          norm_num

/-- C3 witness at concrete confidence labels. -/
theorem claim_C3_witness :
    confidenceScore "garbage" = 1/2 ∧
    (needsReview "medium" = true ↔ "medium" ≠ "high") :=
  ⟨(claim_C3 "garbage").2.2.2.1 "garbage" (by decide) (by decide),
   (claim_C3 "medium").2.2.2.2.2⟩

/-! ## Claim C4 -/

def replyGadgets : String :=
  "\x7b\"merchant_name\":\"GizmoHut\",\"amount\":199,\"category\":\"Gadgets\",\"receipt_date\":\"2026-10-01\",\"confidence\":\"high\"\x7d"

def envGadgets : OcrEnv :=
  { fetchOk := Except.ok ()
    visionReply := Except.ok (some replyGadgets)
    nativeParse := isoNativeParse
    today := daysFromCivil 2026 10 11
    randDaysAgo := 3
    randA := 0
    randB := 0 }

/-- C4: the output category always lies in the closed set
{Meals, Travel, Supplies, Other}, on both the vision path and the fallback
path; a vision reply carrying the unknown category "Gadgets" coerces to
"Other". -/
theorem claim_C4 :
    (∀ (env : OcrEnv) (filename : String),
      (aiOCRExtraction env filename).category ∈ categoryList) ∧
    (aiOCRExtraction envGadgets "receipt.jpg").category = "Other" := by
  constructor
  · intro env filename
    cases hv : visionAttempt env filename with
    | ok r =>
      have : aiOCRExtraction env filename = r := by
        unfold aiOCRExtraction
        rw [hv]
      rw [this]
      obtain ⟨j, hj⟩ := visionAttempt_ok hv
      rw [(validateVisionData_ok hj).2.2.1]
      exact coerceCategory_mem _
    | error e =>
      rw [aiOCR_of_error hv]
      exact enhancedPattern_category _ _ _ _ _
  · decide

/-! ## Claim C9 -/

/-- C9: `checkForDuplicate` returns true exactly when a persisted record
with identical (userID, merchant, amount, date) exists and was created
within the trailing 90 days, and returns false on a persistence-layer
lookup error (fail-open, never raising). -/
theorem claim_C9 (db : List Receipt) (now userId : Int) (merchant : String)
    (amount : ℚ) (dateVal : Int) :
    (checkForDuplicate db false now userId merchant amount dateVal = true ↔
      ∃ r ∈ db, duplicatePred now userId merchant amount dateVal r) ∧
    checkForDuplicate db true now userId merchant amount dateVal = false := by
  constructor
  · simp [checkForDuplicate, List.find?_isSome]
  · rfl

/-! ## Claim C10 -/

def jC10 : Json := Json.str "x"

/-- The record `validateVisionData` builds from the reply `jC10` at
`today = 0`, `randDaysAgo = 3`, filename `"a.jpg"`. -/
def recC10 : ExtractedData :=
  { merchant_name := validatedMerchant (getField jC10 "merchant_name")
    amount := orZero (jsParseFloatJ (getField jC10 "amount"))
    category := coerceCategory (getField jC10 "category")
    receipt_date := (validateAndFixDateJson isoNativeParse 0 3
      (getField jC10 "receipt_date") "a.jpg").1
    confidence := coerceConfidence (getField jC10 "confidence")
    date_source := "ai_vision"
    extraction_notes :=
      some (validatedNotes (getField jC10 "extraction_notes")) }

/-- C10: on every successful vision-parse path the record's `date_source` is
"ai_vision" and its `confidence` is the model-supplied categorical value
coerced to the closed set; the confidence computed by the date reconciler is
discarded.  Concretely, the reply with the out-of-window date `2099-01-01`
and model confidence "high" yields a regenerated date yet keeps confidence
"high", so `needsReview` is false. -/
theorem claim_C10 :
    (∀ (np : String → Option Int) (today : Int) (r : Nat) (j : Json)
       (fn : String) (rec : ExtractedData),
      validateVisionData np today r j fn = Except.ok rec →
      rec.date_source = "ai_vision" ∧
      rec.confidence = coerceConfidence (getField j "confidence")) ∧
    (aiOCRExtraction (envC5 3 0 0) "receipt.jpg").receipt_date ≠
      "2099-01-01" ∧
    (aiOCRExtraction (envC5 3 0 0) "receipt.jpg").confidence = "high" ∧
    (aiOCRExtraction (envC5 3 0 0) "receipt.jpg").date_source = "ai_vision" ∧
    needsReview (aiOCRExtraction (envC5 3 0 0) "receipt.jpg").confidence =
      false := by
  refine ⟨?_, by decide, by decide, by decide, ?_⟩
  · intro np today r j fn rec h
    exact ⟨(validateVisionData_ok h).2.2.2.2.2,
      (validateVisionData_ok h).2.2.2.2.1⟩
  · have hc : (aiOCRExtraction (envC5 3 0 0) "receipt.jpg").confidence =
        "high" := by decide
    rw [hc]
    have e : confidenceScore "high" = 9/10 := rfl
    simp only [needsReview, e, Bool.eq_false_iff, ne_eq, decide_eq_true_eq]
    norm_num

/-- C10 witness: a concrete reply on which the validated record carries
`date_source = "ai_vision"` and the coerced model confidence. -/
theorem claim_C10_witness :
    validateVisionData isoNativeParse 0 3 jC10 "a.jpg" =
      Except.ok recC10 ∧
    recC10.date_source = "ai_vision" ∧
    recC10.confidence = coerceConfidence (getField jC10 "confidence") :=
  ⟨rfl, claim_C10.1 isoNativeParse 0 3 jC10 "a.jpg" recC10 rfl⟩

/-! ## Claim C5 -/

/-- C5, amended: for the prose-wrapped reply `replyC5` the JSON object is
located and parsed, the out-of-window date 2099-01-01 is discarded and
regenerated (today − randDaysAgo), and the amount normalizes to 12.5 —
but the merchant name stays "UBER": the title-case step uppercases
word-initial letters and never lowercases, so "UBER" does not become
"Uber", not even under a second pass of `normalizeMerchant`. -/
theorem claim_C5 :
    (aiOCRExtraction (envC5 3 0 0) "receipt.jpg").merchant_name = "UBER" ∧
    normalizeMerchantStr
      (aiOCRExtraction (envC5 3 0 0) "receipt.jpg").merchant_name =
      "UBER" ∧
    (aiOCRExtraction (envC5 3 0 0) "receipt.jpg").amount = 25/2 ∧
    (aiOCRExtraction (envC5 3 0 0) "receipt.jpg").category = "Travel" ∧
    (aiOCRExtraction (envC5 3 0 0) "receipt.jpg").receipt_date =
      "2026-10-08" ∧
    (aiOCRExtraction (envC5 3 0 0) "receipt.jpg").receipt_date ≠
      "2099-01-01" := by
  refine ⟨by decide, by decide, ?_, by decide, by decide, by decide⟩
  show decimal 1250 2 = 25/2
  norm_num [decimal]

/-- C5 counterexample: the extracted merchant "UBER" does not normalize to
"Uber"; `normalizeMerchant` maps it to "UBER". -/
theorem claim_C5_counterexample :
    normalizeMerchantStr
      (aiOCRExtraction (envC5 3 0 0) "receipt.jpg").merchant_name ≠
      "Uber" ∧
    normalizeMerchantStr "UBER" = "UBER" := ⟨by decide, by decide⟩

/-! ## Claim C6 -/

def replyNeg : String :=
  "\x7b\"merchant_name\":\"Refundz\",\"amount\":\"-5\",\"category\":\"Meals\",\"receipt_date\":\"2026-10-01\",\"confidence\":\"high\"\x7d"

def envNeg : OcrEnv :=
  { fetchOk := Except.ok ()
    visionReply := Except.ok (some replyNeg)
    nativeParse := isoNativeParse
    today := daysFromCivil 2026 10 11
    randDaysAgo := 3
    randA := 0
    randB := 0 }

theorem normalizeCurrency_nonneg (s c : String) :
    0 ≤ (normalizeCurrency s c).amount := by
  simp only [normalizeCurrency]
  cases hg : numericGroup s.toList with
  | none => norm_num
  | some g =>
    simp only [groupVal, decimal]
    apply div_nonneg
    · exact Int.cast_nonneg.mpr (Int.ofNat_nonneg _)
    · positivity

def jC6 : Json := Json.str "y"

/-- The record `validateVisionData` builds from the reply `jC6` at
`today = 0`, `randDaysAgo = 3`, filename `"b.jpg"`. -/
def recC6 : ExtractedData :=
  { merchant_name := validatedMerchant (getField jC6 "merchant_name")
    amount := orZero (jsParseFloatJ (getField jC6 "amount"))
    category := coerceCategory (getField jC6 "category")
    receipt_date := (validateAndFixDateJson isoNativeParse 0 3
      (getField jC6 "receipt_date") "b.jpg").1
    confidence := coerceConfidence (getField jC6 "confidence")
    date_source := "ai_vision"
    extraction_notes :=
      some (validatedNotes (getField jC6 "extraction_notes")) }

/-- C6, amended: the vision-path amount is `parseFloat(amount) || 0` — an
unparseable amount coerces to 0 (never NaN), but the sign is kept, so the
amount can be negative: the reply with `"amount":"-5"` yields −5.  Only the
route-level `normalizeCurrency` (whose numeric regex `(\d+\.?\d*)` carries
no sign) is non-negative. -/
theorem claim_C6 :
    (∀ (np : String → Option Int) (today : Int) (r : Nat) (j : Json)
       (fn : String) (rec : ExtractedData),
      validateVisionData np today r j fn = Except.ok rec →
      rec.amount = orZero (jsParseFloatJ (getField j "amount"))) ∧
    (∀ v : Option Json, jsParseFloatJ v = none →
      orZero (jsParseFloatJ v) = 0) ∧
    (aiOCRExtraction envNeg "receipt.jpg").amount < 0 ∧
    (∀ s c : String, 0 ≤ (normalizeCurrency s c).amount) := by
  refine ⟨?_, ?_, ?_, ?_⟩
  · intro np today r j fn rec h
    exact (validateVisionData_ok h).2.1
  · intro v hv
    rw [hv]
    rfl
  · show decimal (-5) 0 < 0
    norm_num [decimal]
  · intro s c
    exact normalizeCurrency_nonneg s c

/-- C6 witness: a concrete validated record whose amount is the
`parseFloat || 0` of the reply's amount field, and a concrete unparseable
amount coercing to 0. -/
theorem claim_C6_witness :
    (validateVisionData isoNativeParse 0 3 jC6 "b.jpg" =
      Except.ok recC6 ∧
    recC6.amount = orZero (jsParseFloatJ (getField jC6 "amount"))) ∧
    (jsParseFloatJ (none : Option Json) = none ∧
    orZero (jsParseFloatJ (none : Option Json)) = 0) :=
  ⟨⟨rfl, claim_C6.1 isoNativeParse 0 3 jC6 "b.jpg" recC6 rfl⟩,
   ⟨by decide, claim_C6.2.1 none (by decide)⟩⟩

/-- C6 counterexample: the reply with `"amount":"-5"` produces a negative
extracted amount, refuting non-negativity of the vision-path amount. -/
theorem claim_C6_counterexample :
    (aiOCRExtraction envNeg "img.jpg").amount = -5 ∧
    ¬ (0 ≤ (aiOCRExtraction envNeg "img.jpg").amount) := by
  constructor
  · show decimal (-5) 0 = -5
    norm_num [decimal]
  · show ¬ (0 : ℚ) ≤ decimal (-5) 0
    norm_num [decimal]

/-! ## Claim C8 -/

/-- The amount range the fallback extractor draws from: the matched
merchant-table entry's range, or the default `(5, 50)` when no keyword
matches (mirrors the `min`/`max` locals of `enhancedPatternExtraction`). -/
def matchedRange (fn : String) : Int × Int :=
  match merchantPatterns.find?
      (fun e => containsSub e.1.toList (fn.toList.map lowerChar)) with
  | some e => (e.2.2.2.1, e.2.2.2.2)
  | none => (5, 50)

theorem matchedRange_ok (fn : String) :
    0 < (matchedRange fn).1 ∧ (matchedRange fn).1 ≤ (matchedRange fn).2 := by
  unfold matchedRange
  cases hf : merchantPatterns.find?
      (fun e => containsSub e.1.toList (fn.toList.map lowerChar)) with
  | none => exact ⟨by norm_num, by norm_num⟩
  | some e =>
    have h := merchantPatterns_entry_ok e (List.mem_of_find?_eq_some hf)
    exact ⟨h.1, h.2.1⟩

theorem enhancedPattern_amount (today : Int) (r : Nat) (rA rB : ℚ)
    (fn : String) :
    (enhancedPatternExtraction today r rA rB fn).amount =
      fallbackAmount (matchedRange fn).1 (matchedRange fn).2 rA rB := by
  simp only [enhancedPatternExtraction, matchedRange]
  cases hf : merchantPatterns.find?
      (fun e => containsSub e.1.toList (List.map lowerChar fn.toList)) with
  | none => rfl
  | some e => rfl

theorem fallbackAmount_bounds (mn mx : Int) (rA rB : ℚ) (h0 : 0 ≤ rA)
    (h1 : rA < 1) (h2 : 0 ≤ rB) (h3 : rB < 1) (hle : mn ≤ mx) :
    (mn : ℚ) ≤ fallbackAmount mn mx rA rB ∧
      fallbackAmount mn mx rA rB ≤ (mx : ℚ) + 1 := by
  have hmm : (mn : ℚ) ≤ (mx : ℚ) := by exact_mod_cast hle
  unfold fallbackAmount jsRound
  set q : ℚ := rA * ((mx : ℚ) - (mn : ℚ)) + (mn : ℚ) + rB with hq
  have hdn : (0 : ℚ) ≤ (mx : ℚ) - (mn : ℚ) := sub_nonneg.2 hmm
  have hql : (mn : ℚ) ≤ q := by nlinarith [mul_nonneg h0 hdn]
  have hqu : q < (mx : ℚ) + 1 := by
    have hm : rA * ((mx : ℚ) - (mn : ℚ)) ≤ (mx : ℚ) - (mn : ℚ) :=
      mul_le_of_le_one_left hdn (le_of_lt h1)
    rw [hq]
    linarith
  have hfl : ((100 * mn : Int) : ℚ) ≤ q * 100 + 1 / 2 := by
    push_cast
    linarith
  have hlo : (100 * mn : Int) ≤ ⌊q * 100 + 1 / 2⌋ := Int.le_floor.2 hfl
  have hhi : ⌊q * 100 + 1 / 2⌋ < (mx + 1) * 100 + 1 := by
    apply Int.floor_lt.2
    push_cast
    linarith
  constructor
  · rw [le_div_iff₀ (by norm_num : (0 : ℚ) < 100)]
    calc (mn : ℚ) * 100 = ((100 * mn : Int) : ℚ) := by push_cast; ring
    _ ≤ (⌊q * 100 + 1 / 2⌋ : ℚ) := by exact_mod_cast hlo
  · rw [div_le_iff₀ (by norm_num : (0 : ℚ) < 100)]
    have hle2 : ⌊q * 100 + 1 / 2⌋ ≤ (mx + 1) * 100 := by omega
    calc (⌊q * 100 + 1 / 2⌋ : ℚ) ≤ (((mx + 1) * 100 : Int) : ℚ) := by
          exact_mod_cast hle2
    _ = ((mx : ℚ) + 1) * 100 := by push_cast; ring

/-- C8, amended: the fallback amount is
`Math.round((rand·(max − min) + min + rand2)·100)/100` with both random
draws in `[0, 1)`: the second draw is a jitter of up to one dollar (not
sub-cent), so the synthesized amount lies between the matched range's lower
bound and its upper bound plus one dollar. -/
theorem claim_C8 (today : Int) (r : Nat) (rA rB : ℚ) (fn : String)
    (h0 : 0 ≤ rA) (h1 : rA < 1) (h2 : 0 ≤ rB) (h3 : rB < 1) :
    (enhancedPatternExtraction today r rA rB fn).amount =
      fallbackAmount (matchedRange fn).1 (matchedRange fn).2 rA rB ∧
    ((matchedRange fn).1 : ℚ) ≤
      (enhancedPatternExtraction today r rA rB fn).amount ∧
    (enhancedPatternExtraction today r rA rB fn).amount ≤
      ((matchedRange fn).2 : ℚ) + 1 := by
  have he := enhancedPattern_amount today r rA rB fn
  have hb := fallbackAmount_bounds (matchedRange fn).1 (matchedRange fn).2
    rA rB h0 h1 h2 h3 (matchedRange_ok fn).2
  exact ⟨he, by rw [he]; exact hb.1, by rw [he]; exact hb.2⟩

/-- C8 witness: the bounds at a concrete filename and concrete draws. -/
theorem claim_C8_witness :
    (enhancedPatternExtraction 0 3 0 0 "x.png").amount =
      fallbackAmount (matchedRange "x.png").1 (matchedRange "x.png").2
        0 0 ∧
    ((matchedRange "x.png").1 : ℚ) ≤
      (enhancedPatternExtraction 0 3 0 0 "x.png").amount ∧
    (enhancedPatternExtraction 0 3 0 0 "x.png").amount ≤
      ((matchedRange "x.png").2 : ℚ) + 1 :=
  claim_C8 0 3 0 0 "x.png" (le_refl 0) (by norm_num) (le_refl 0)
    (by norm_num)

/-- C8 counterexample: with draws 0.99 and 0.99 the starbucks-matched range
(4, 12) yields 12.91, exceeding the upper bound by 91 cents — more than one
cent, refuting the sub-cent-jitter reading. -/
theorem claim_C8_counterexample :
    (0 : ℚ) ≤ 99 / 100 ∧ (99 / 100 : ℚ) < 1 ∧
    (matchedRange "starbucks.jpg").2 = 12 ∧
    ((matchedRange "starbucks.jpg").2 : ℚ) + 1 / 100 <
      (enhancedPatternExtraction 0 3 (99 / 100) (99 / 100)
        "starbucks.jpg").amount := by
  refine ⟨by norm_num, by norm_num, by decide, ?_⟩
  have e : ((matchedRange "starbucks.jpg").2 : ℚ) = 12 := by
    rw [show (matchedRange "starbucks.jpg").2 = 12 from by decide]
    norm_num
  rw [e]
  show (12 : ℚ) + 1 / 100 < fallbackAmount 4 12 (99 / 100) (99 / 100)
  norm_num [fallbackAmount, jsRound]

/-! ## Claim C7 -/

/-- C7, amended: the merchant normalizer is idempotent on every input free
of line terminators.  (On inputs with a line terminator the noise regexes,
whose `.`/`$` cannot cross the terminator, can fail on the first pass yet
match on the second after `collapseWs` has turned the terminator into a
space.) -/
theorem claim_C7 (s : String) (h : noLT s.toList = true) :
    normalizeMerchantStr (normalizeMerchantStr s) =
      normalizeMerchantStr s := by
  show (⟨normalizeMerchant (normalizeMerchant s.toList)⟩ : String) =
    ⟨normalizeMerchant s.toList⟩
  rw [normalizeMerchant_idem_ltFree h]

/-- C7 witness: idempotence at a concrete line-terminator-free input. -/
theorem claim_C7_witness :
    noLT "STARBUCKS STORE #1234".toList = true ∧
    normalizeMerchantStr (normalizeMerchantStr "STARBUCKS STORE #1234") =
      normalizeMerchantStr "STARBUCKS STORE #1234" :=
  ⟨by decide, claim_C7 "STARBUCKS STORE #1234" (by decide)⟩

/-- C7 counterexample: with an embedded newline, the first pass cannot match
the numeric-noise regex across the line terminator but the second pass can
(after whitespace collapsing), so normalization is not idempotent. -/
theorem claim_C7_counterexample :
    normalizeMerchantStr (normalizeMerchantStr "A 1234\nB") ≠
      normalizeMerchantStr "A 1234\nB" := by decide

/-! ## Claim C1 -/

/-- The `parsedDate` local of `validateAndFixDate`: the platform parse of
the date string, then the `MM/DD/YYYY` and `MM-DD-YYYY` textual
patterns. -/
def vafParsed (np : String → Option Int) (dateString : String) :
    Option Int :=
  match np dateString with
  | some d => some d
  | none =>
    match scanFor (mdyAt isSlash) dateString.toList with
    | some (m, d, y) => some (jsDateCtor y m d)
    | none =>
      match scanFor (mdyAt isDash) dateString.toList with
      | some (m, d, y) => some (jsDateCtor y m d)
      | none => none

/-- C1, amended: the plausibility window `[oneYearAgo, tomorrow]` is
enforced only on the parsed incoming date string: an in-window parse is
accepted (confidence "high"), an out-of-window or failed parse triggers
regeneration, not rejection.  The regenerated date, however, is not
re-checked against the window: the random path stays in-window (concrete
instance), but a filename-derived date is only checked for year ∈
[2020, current year] and can be older than one year (concrete instance:
filename date 2020-01-01 against evaluation date 2026-10-11). -/
theorem claim_C1 :
    (∀ (np : String → Option Int) (today : Int) (r : Nat) (ds fn : String)
       (d : Int),
      vafParsed np ds = some d →
      ¬(d > today + 1 ∨
        d < daysFromCivil (yearOf today - 1) (monthOf today)
          (dayOf today)) →
      validateAndFixDate np today r ds fn = (⟨isoOfDay d⟩, "high")) ∧
    (∀ (np : String → Option Int) (today : Int) (r : Nat) (ds fn : String)
       (d : Int),
      vafParsed np ds = some d →
      (d > today + 1 ∨
        d < daysFromCivil (yearOf today - 1) (monthOf today)
          (dayOf today)) →
      validateAndFixDate np today r ds fn =
        generateReasonableDate today r fn) ∧
    (∀ (np : String → Option Int) (today : Int) (r : Nat) (ds fn : String),
      vafParsed np ds = none →
      validateAndFixDate np today r ds fn =
        generateReasonableDate today r fn) ∧
    (validateAndFixDate isoNativeParse (daysFromCivil 2026 10 11) 3
        "garbage" "x.png" = ("2026-10-08", "low") ∧
      isoNativeParse "2026-10-08" = some (daysFromCivil 2026 10 8) ∧
      daysFromCivil (yearOf (daysFromCivil 2026 10 11) - 1)
          (monthOf (daysFromCivil 2026 10 11))
          (dayOf (daysFromCivil 2026 10 11)) ≤ daysFromCivil 2026 10 8 ∧
      daysFromCivil 2026 10 8 ≤ daysFromCivil 2026 10 11 + 1) ∧
    ((validateAndFixDate isoNativeParse (daysFromCivil 2026 10 11) 3
        "2099-01-01" "receipt_2020-01-01.jpg").1 = "2020-01-01" ∧
      isoNativeParse "2020-01-01" = some (daysFromCivil 2020 1 1) ∧
      daysFromCivil 2020 1 1 <
        daysFromCivil (yearOf (daysFromCivil 2026 10 11) - 1)
          (monthOf (daysFromCivil 2026 10 11))
          (dayOf (daysFromCivil 2026 10 11))) := by
  refine ⟨?_, ?_, ?_, by decide, by decide⟩
  · intro np today r ds fn d h hw
    simp only [validateAndFixDate]
    unfold vafParsed at h
    simp only [h]
    have hb : ¬((decide (d > today + 1) ||
        decide (d < daysFromCivil (yearOf today - 1) (monthOf today)
          (dayOf today))) = true) := by
      simp only [Bool.or_eq_true, decide_eq_true_eq]
      exact hw
    rw [if_neg hb]
  · intro np today r ds fn d h hw
    simp only [validateAndFixDate]
    unfold vafParsed at h
    simp only [h]
    have hb : (decide (d > today + 1) ||
        decide (d < daysFromCivil (yearOf today - 1) (monthOf today)
          (dayOf today))) = true := by
      simp only [Bool.or_eq_true, decide_eq_true_eq]
      exact hw
    rw [if_pos hb]
  · intro np today r ds fn h
    simp only [validateAndFixDate]
    unfold vafParsed at h
    simp only [h]

/-- C1 witness: a concrete in-window parse is accepted, and a concrete
out-of-window parse triggers regeneration. -/
theorem claim_C1_witness :
    (vafParsed isoNativeParse "2026-10-01" =
      some (daysFromCivil 2026 10 1) ∧
    validateAndFixDate isoNativeParse (daysFromCivil 2026 10 11) 3
      "2026-10-01" "w.jpg" =
      (⟨isoOfDay (daysFromCivil 2026 10 1)⟩, "high")) ∧
    (vafParsed isoNativeParse "2099-01-01" =
      some (daysFromCivil 2099 1 1) ∧
    validateAndFixDate isoNativeParse (daysFromCivil 2026 10 11) 3
      "2099-01-01" "receipt_2020-01-01.jpg" =
      generateReasonableDate (daysFromCivil 2026 10 11) 3
        "receipt_2020-01-01.jpg") :=
  ⟨⟨by decide,
    claim_C1.1 isoNativeParse (daysFromCivil 2026 10 11) 3 "2026-10-01"
      "w.jpg" (daysFromCivil 2026 10 1) (by decide) (by decide)⟩,
   ⟨by decide,
    claim_C1.2.1 isoNativeParse (daysFromCivil 2026 10 11) 3 "2099-01-01"
      "receipt_2020-01-01.jpg" (daysFromCivil 2099 1 1) (by decide)
      (by decide)⟩⟩

/-- C1 counterexample: a failed parse with filename `IMG_2021-05-05.png`
regenerates the date `2021-05-05`, which is older than one year relative to
the evaluation date 2026-10-11 — the output violates the claimed window. -/
theorem claim_C1_counterexample :
    (validateAndFixDate isoNativeParse (daysFromCivil 2026 10 11) 3
      "not-a-date" "IMG_2021-05-05.png").1 = "2021-05-05" ∧
    isoNativeParse "2021-05-05" = some (daysFromCivil 2021 5 5) ∧
    daysFromCivil 2021 5 5 <
      daysFromCivil (yearOf (daysFromCivil 2026 10 11) - 1)
        (monthOf (daysFromCivil 2026 10 11))
        (dayOf (daysFromCivil 2026 10 11)) := by
  refine ⟨by decide, by decide, by decide⟩

end Reimburse
